import Mathlib

/-!
Verification of the webhook-relay core against its specification.

The definitions below are a shallow embedding of the Rust sources:
  * `src/src/idempotency.rs`  — in-memory two-map idempotency store
  * `src/src/store.rs`        — persistent pending/DLQ store over redb
  * `src/src/signatures.rs`   — HMAC header normalization and compare
  * `src/src/timestamps.rs`   — Linear timestamp gate
  * `src/crates/relay-core/src/sanitize.rs` — annotate-only sanitizer
  * `src/crates/relay-core/src/filters.rs`  — ingress admission filters
  * `src/src/main.rs`         — forward worker and HTTP hooks
  * `src/src/producer.rs`     — broker publish backoff
  * `src/src/keys.rs`         — dedup/cooldown key builders

Maps and redb tables are embedded as association lists with unique keys
(redb B-trees and `HashMap`s never hold duplicate keys); `u32`/`u64`
arithmetic is embedded on `Nat` with explicit saturation; `i64` epoch
arithmetic is embedded on `Int`.  External crates (HMAC-SHA256, the regex
engine, serde's JSON parser) are abstracted as parameters where a claim
mentions them.
-/

namespace WebhookRelay

/-- Largest value of a `u32`. -/
def U32_MAX : Nat := 2 ^ 32 - 1

/-- Largest value of a `u64`. -/
def U64_MAX : Nat := 2 ^ 64 - 1

/-! ### Association-list tables

`lookupKey`/`insertKey`/`eraseKey` model the `get`/`insert`/`remove`
operations of `HashMap<String, _>` and of redb tables.  `insertKey`
replaces the value in place when the key is present and appends
otherwise; `eraseKey` drops every entry with the key (for the unique-key
lists produced by `insertKey` this removes exactly one entry). -/

def lookupKey {α : Type} : List (String × α) → String → Option α
  | [], _ => none
  | (k, v) :: rest, key => if k = key then some v else lookupKey rest key

def insertKey {α : Type} : List (String × α) → String → α → List (String × α)
  | [], key, value => [(key, value)]
  | (k, v) :: rest, key, value =>
      if k = key then (key, value) :: rest else (k, v) :: insertKey rest key value

def eraseKey {α : Type} (l : List (String × α)) (key : String) : List (String × α) :=
  l.filter (fun entry => entry.1 ≠ key)

/-! ### Idempotency store (`src/src/idempotency.rs`) -/

inductive IdempotencyDecision where
  | Accept
  | Duplicate
  | Cooldown
  deriving DecidableEq, Repr

/-- The two TTL maps of `IdempotencyStore` (`dedup_expirations`,
`cooldown_expirations`), each `key → expires_at_epoch`. -/
structure IdemState where
  dedup : List (String × Int)
  cooldown : List (String × Int)
  deriving DecidableEq, Repr

/-- Rust `prune_expired`: retain entries with `expires_at > now_epoch`. -/
def prune_expired (cache : List (String × Int)) (now_epoch : Int) : List (String × Int) :=
  cache.filter (fun entry => entry.2 > now_epoch)

/-- Rust `IdempotencyStore::check`.  The `dedup_ttl_seconds` and
`cooldown_seconds` fields of the store are passed explicitly; the
lock-poisoning fallback branches are concurrency behaviour and are not
part of this sequential embedding. -/
def IdempotencyStore.check (dedup_ttl cooldown_ttl : Int) (st : IdemState)
    (dedup_key : String) (cooldown_key : Option String) (now_epoch : Int) :
    IdempotencyDecision × IdemState :=
  if dedup_key = "" then
    (.Accept, st)
  else
    let pruned := prune_expired st.dedup now_epoch
    let dedupHit : Bool :=
      match lookupKey pruned dedup_key with
      | some expires_at => expires_at > now_epoch
      | none => false
    if dedupHit then
      (.Duplicate, { st with dedup := pruned })
    else
      let dedup' := insertKey pruned dedup_key (now_epoch + dedup_ttl)
      match cooldown_key with
      | none => (.Accept, { st with dedup := dedup' })
      | some ck =>
        if ck = "" then
          (.Accept, { st with dedup := dedup' })
        else
          let cpruned := prune_expired st.cooldown now_epoch
          let cooldownHit : Bool :=
            match lookupKey cpruned ck with
            | some expires_at => expires_at > now_epoch
            | none => false
          if cooldownHit then
            (.Cooldown, { dedup := dedup', cooldown := cpruned })
          else
            (.Accept, { dedup := dedup', cooldown := insertKey cpruned ck (now_epoch + cooldown_ttl) })

/-! ### JSON values (`serde_json::Value`)

Numbers are embedded as `Int`: every claim below inspects JSON numbers
only through `as_i64`/`as_u64`, whose domains are covered by the explicit
`i64` range checks at the use sites; floating-point numbers behave like
out-of-range values there (both fail the integer accessors). Objects are
association lists iterated in stored order. -/

inductive Json where
  | null
  | bool (b : Bool)
  | num (n : Int)
  | str (s : String)
  | arr (items : List Json)
  | obj (fields : List (String × Json))
  deriving Inhabited

/-- Rust `Value::get(key)`: field lookup, objects only. -/
def Json.getField : Json → String → Option Json
  | .obj fields, key => lookupKey fields key
  | _, _ => none

/-- Rust `Value::as_str`. -/
def Json.asStr : Json → Option String
  | .str s => some s
  | _ => none

/-- Rust `Value::as_bool`. -/
def Json.asBool : Json → Option Bool
  | .bool b => some b
  | _ => none

/-! ### Event model (`src/src/model.rs`) -/

inductive Source where
  | Github
  | Linear
  deriving DecidableEq, Repr

/-- Rust `Source::as_str`. -/
def Source.as_str : Source → String
  | .Github => "github"
  | .Linear => "linear"

/-- Rust `Source::openclaw_source_query`. -/
def Source.openclaw_source_query : Source → String
  | .Github => "github-pr"
  | .Linear => "linear"

structure EventMetadata where
  delivery_id : String
  event_name : Option String
  installation_id : Option String
  team_key : Option String

structure PendingEvent where
  event_id : String
  source : Source
  dedup_key : String
  cooldown_key : String
  action : String
  entity_id : String
  payload : Json
  metadata : EventMetadata
  /-- Rust `attempts: u32`, embedded as a `Nat` kept `≤ U32_MAX`. -/
  attempts : Nat
  next_retry_at_epoch : Int
  created_at_epoch : Int

structure DlqEvent where
  pending_event : PendingEvent
  failure_reason : String
  failed_at_epoch : Int
  /-- Rust `replay_count: u32`. -/
  replay_count : Nat

inductive EnqueueResult where
  | Enqueued
  | Duplicate
  | Cooldown
  deriving DecidableEq, Repr

/-! ### Persistent store (`src/src/store.rs`)

The four redb tables of `RelayStore`.  Rows are stored deserialized: the
JSON round-trip through `serialize_json`/`deserialize_json` is serde
behaviour external to this repository and is the identity on well-formed
rows.  A transaction that is dropped without `commit()` leaves the
database unchanged, so early-return paths below return the input store. -/

structure RelayStore where
  pending_events : List (String × PendingEvent)
  dlq_events : List (String × DlqEvent)
  dedup_index : List (String × Int)
  cooldown_index : List (String × Int)

/-- Rust `RelayStore::enqueue_pending_event`.  The `Duplicate` early return
happens before `commit()`, so the transaction aborts and no table is
modified; the `Cooldown` path commits after the dedup upsert. -/
def RelayStore.enqueue_pending_event (st : RelayStore) (event : PendingEvent)
    (dedup_retention_seconds cooldown_seconds now_epoch : Int) :
    EnqueueResult × RelayStore :=
  let dedupHit : Bool :=
    match lookupKey st.dedup_index event.dedup_key with
    | some existing_expiry => existing_expiry > now_epoch
    | none => false
  if dedupHit then
    (.Duplicate, st)
  else
    let dedup' := insertKey st.dedup_index event.dedup_key (now_epoch + dedup_retention_seconds)
    let cooldown_hit : Bool :=
      match lookupKey st.cooldown_index event.cooldown_key with
      | some existing_expiry => existing_expiry > now_epoch
      | none => false
    if cooldown_hit then
      (.Cooldown, { st with dedup_index := dedup' })
    else
      let cooldown' := insertKey st.cooldown_index event.cooldown_key (now_epoch + cooldown_seconds)
      (.Enqueued,
        { st with
            dedup_index := dedup'
            cooldown_index := cooldown'
            pending_events := insertKey st.pending_events event.event_id event })

/-- One iteration of the `pop_due_event` scan loop: keep the current
selection unless the row is due and strictly earlier than the selected
one (`>= current best` keeps the selection). -/
def selectStep (now_epoch : Int) (selected : Option (String × PendingEvent))
    (row : String × PendingEvent) : Option (String × PendingEvent) :=
  if row.2.next_retry_at_epoch ≤ now_epoch then
    match selected with
    | some best =>
        if row.2.next_retry_at_epoch ≥ best.2.next_retry_at_epoch then selected
        else some row
    | none => some row
  else selected

/-- The scan loop of `pop_due_event`. -/
def selectDue (rows : List (String × PendingEvent)) (now_epoch : Int) :
    Option (String × PendingEvent) :=
  rows.foldl (selectStep now_epoch) none

/-- Rust `RelayStore::pop_due_event`. -/
def RelayStore.pop_due_event (st : RelayStore) (now_epoch : Int) :
    Option PendingEvent × RelayStore :=
  match selectDue st.pending_events now_epoch with
  | some (event_id, event) =>
      (some event, { st with pending_events := eraseKey st.pending_events event_id })
  | none => (none, st)

/-- Rust `RelayStore::requeue_event`. -/
def RelayStore.requeue_event (st : RelayStore) (event : PendingEvent) : RelayStore :=
  { st with pending_events := insertKey st.pending_events event.event_id event }

/-- Rust `RelayStore::move_to_dlq`. -/
def RelayStore.move_to_dlq (st : RelayStore) (event : PendingEvent) (reason : String)
    (now_epoch : Int) : RelayStore :=
  let dlq_event : DlqEvent :=
    { pending_event := event
      failure_reason := reason
      failed_at_epoch := now_epoch
      replay_count := 0 }
  { st with dlq_events := insertKey st.dlq_events event.event_id dlq_event }

/-- Rust `RelayStore::replay_dlq_event`.  The missing-row path returns inside
the transaction without committing.  The incremented `replay_count` is
local to the removed DLQ row and is dropped with it, exactly as in the
source. -/
def RelayStore.replay_dlq_event (st : RelayStore) (event_id : String) (now_epoch : Int) :
    Bool × RelayStore :=
  match lookupKey st.dlq_events event_id with
  | none => (false, st)
  | some dlq_event =>
      let replay_event :=
        { dlq_event.pending_event with attempts := 0, next_retry_at_epoch := now_epoch }
      (true,
        { st with
            dlq_events := eraseKey st.dlq_events event_id
            pending_events := insertKey st.pending_events event_id replay_event })

/-! ### Signature verification (`src/src/signatures.rs`)

`compute_hmac_sha256_hex` is the external `hmac`/`sha2`/`hex` crates; it
is abstracted as a function parameter `hmacHex`.  `hex::encode` always
produces lowercase hex digits, which theorems take as a hypothesis. -/

/-- Rust `char::to_ascii_lowercase`. -/
def asciiLower (c : Char) : Char :=
  if 65 ≤ c.toNat ∧ c.toNat ≤ 90 then Char.ofNat (c.toNat + 32) else c

/-- Rust `str::trim`: drop whitespace from both ends. -/
def trimChars (s : List Char) : List Char :=
  ((s.dropWhile Char.isWhitespace).reverse.dropWhile Char.isWhitespace).reverse

/-- Rust `normalize_signature`: trim, strip a leading `sha256=`, drop all
remaining whitespace, lowercase. -/
def normalize_signature (raw : String) : String :=
  let trimmed := trimChars raw.data
  let stripped := if trimmed.take 7 = "sha256=".data then trimmed.drop 7 else trimmed
  ⟨(stripped.filter (fun c => !c.isWhitespace)).map asciiLower⟩

/-- Rust `constant_time_hex_equals`: unequal lengths fail immediately; equal
lengths compare with `subtle::ConstantTimeEq`, whose result is byte
equality. -/
def constant_time_hex_equals (left right : String) : Bool :=
  if left.length ≠ right.length then false else left == right

/-- Rust `verify_github_signature`, with the HMAC computation abstracted. -/
def verify_github_signature (hmacHex : String → List Nat → String)
    (secret : String) (payload : List Nat) (signature_header : String) : Bool :=
  constant_time_hex_equals (normalize_signature signature_header) (hmacHex secret payload)

/-- Lowercase hex digit (`0-9`, `a-f`). -/
def isLowerHexChar (c : Char) : Bool :=
  decide ((48 ≤ c.toNat ∧ c.toNat ≤ 57) ∨ (97 ≤ c.toNat ∧ c.toNat ≤ 102))

def isLowerHexString (s : String) : Bool :=
  s.data.all isLowerHexChar

/-! ### Linear timestamp gate (`src/src/timestamps.rs`) -/

/-- Digit run of `str::parse::<i64>` (after the optional sign). -/
def parseDigits (cs : List Char) : Option Nat :=
  if cs = [] then none
  else if cs.all Char.isDigit then
    some (cs.foldl (fun acc c => acc * 10 + (c.toNat - 48)) 0)
  else none

/-- Rust `str::parse::<i64>`: optional sign, decimal digits, `i64` range. -/
def parse_i64 (s : String) : Option Int :=
  match s.data with
  | [] => none
  | '+' :: rest =>
      (parseDigits rest).bind fun n => if n ≤ 2 ^ 63 - 1 then some (n : Int) else none
  | '-' :: rest =>
      (parseDigits rest).bind fun n => if n ≤ 2 ^ 63 then some (-(n : Int)) else none
  | cs =>
      (parseDigits cs).bind fun n => if n ≤ 2 ^ 63 - 1 then some (n : Int) else none

/-- Rust `extract_linear_webhook_timestamp_epoch`.  On a JSON number the
`as_i64`-then-`as_u64`-then-`try_from` chain yields the value exactly
when it fits `i64` (a `u64` above `i64::MAX` makes `try_from` fail and
the function return `None`; floats fail both accessors). -/
def extract_linear_webhook_timestamp_epoch (payload : Json) : Option Int :=
  (payload.getField "webhookTimestamp").bind fun timestamp_value =>
    let raw? : Option Int :=
      match timestamp_value with
      | .num n => if -(2 ^ 63) ≤ n ∧ n < 2 ^ 63 then some n else none
      | .str text => parse_i64 text
      | _ => none
    raw?.bind fun raw =>
      if raw > 10000000000 then some (raw / 1000) else some raw

/-- Rust `verify_linear_timestamp_window`. -/
def verify_linear_timestamp_window (payload : Json) (now_epoch window_seconds : Int)
    (enforce_check : Bool) : Bool :=
  if !enforce_check then true
  else
    match extract_linear_webhook_timestamp_epoch payload with
    | none => false
    | some ts => |now_epoch - ts| ≤ window_seconds

/-! ### Backoff (`src/src/main.rs` and `src/src/producer.rs`)

`u64` values are `Nat`s below `2 ^ 64`; `saturating_mul` is `min · U64_MAX`
and `u32::saturating_sub 1` is truncated `Nat` subtraction.  The shift
`1u64 << exponent` cannot overflow because `exponent ≤ 31`. -/

/-- Rust `compute_backoff_seconds` (forward worker). -/
def compute_backoff_seconds (initial_seconds max_seconds : Nat) (attempts : Nat) : Nat :=
  let exponent := min (attempts - 1) 31
  let scaled := min (initial_seconds * 2 ^ exponent) U64_MAX
  min scaled max_seconds

/-- Rust `retry_backoff_ms` (broker publisher). -/
def retry_backoff_ms (base_ms max_ms : Nat) (attempt_index : Nat) : Nat :=
  let exponent := min attempt_index 31
  let scaled := min (base_ms * 2 ^ exponent) U64_MAX
  min scaled max_ms

/-! ### Ingress filters (`src/crates/relay-core/src/filters.rs`) -/

def is_supported_github_event_action (event action : String) : Bool :=
  let event_allowed :=
    event == "pull_request" || event == "pull_request_review" ||
    event == "pull_request_review_comment" || event == "issue_comment"
  if !event_allowed then false
  else
    action == "opened" || action == "synchronize" || action == "reopened" ||
    action == "submitted" || action == "created"

def is_supported_linear_type (event_type : String) : Bool :=
  event_type == "Issue" || event_type == "Comment"

/-! ### Key builders (`src/src/keys.rs`) -/

def github_dedup_key (delivery_id action entity_id : String) : String :=
  "github:" ++ delivery_id ++ ":" ++ action ++ ":" ++ entity_id

def linear_dedup_key (delivery_id action entity_id : String) : String :=
  "linear:" ++ delivery_id ++ ":" ++ action ++ ":" ++ entity_id

def github_cooldown_key (repo entity_id : String) : String :=
  "cooldown-github-" ++ repo.replace "/" "-" ++ "-" ++ entity_id

def linear_cooldown_key (team_key entity_id : String) : String :=
  "cooldown-linear-" ++ team_key ++ "-" ++ entity_id

/-! ### Sanitizer (`src/crates/relay-core/src/sanitize.rs` and
`src/src/sanitize.rs`)

The regex engine is external; the compiled injection catalogue is
abstracted as a list of match predicates `patterns : List (String → Bool)`
(`Regex::find` on pattern `p` finds a match in `text` exactly when
`p text` is true).  `detect_injections` returns one formatted hit string
per matching pattern, and only the count of hits is ever used, so it is
embedded as `countHits`. -/

/-- Path extension used by `extract_all_strings`. -/
def joinPath (path segment : String) : String :=
  if path = "" then segment else path ++ "." ++ segment

mutual

/-- Rust `extract_all_strings`: every string value longer than 10 bytes,
with its dot-separated path.  Objects are walked in stored field order. -/
def extractStrings : Json → String → List (String × String)
  | .str text, path => if text.utf8ByteSize > 10 then [(path, text)] else []
  | .obj fields, path => extractStringsObj fields path
  | .arr items, path => extractStringsArr items 0 path
  | _, _ => []

def extractStringsObj : List (String × Json) → String → List (String × String)
  | [], _ => []
  | (key, nested) :: rest, path =>
      extractStrings nested (joinPath path key) ++ extractStringsObj rest path

def extractStringsArr : List Json → Nat → String → List (String × String)
  | [], _, _ => []
  | item :: rest, index, path =>
      extractStrings item (joinPath path (toString index)) ++ extractStringsArr rest (index + 1) path

end

/-- Rust `detect_injections(text).len()`: the number of catalogue patterns
with at least one match in `text` (empty text short-circuits to none). -/
def countHits (patterns : List (String → Bool)) (text : String) : Nat :=
  if text = "" then 0 else (patterns.filter (fun pat => pat text)).length

/-- Rust `find_all_hits`: flagged `(path, hit count)` pairs in extraction
order. -/
def find_all_hits (patterns : List (String → Bool)) (payload : Json) :
    List (String × Nat) :=
  (extractStrings payload "").filterMap fun entry =>
    let hits := countHits patterns entry.2
    if hits = 0 then none else some (entry.1, hits)

/-- One `_flags` entry, `json!({"field": field, "count": count})`. -/
def mkFlag (field : String) (count : Nat) : Json :=
  .obj [("field", .str field), ("count", .num count)]

namespace RelayCore

/-- Rust `ensure_supported_source` (relay-core). -/
def ensure_supported_source (source : String) : Except String Unit :=
  if source = "github" ∨ source = "linear" then .ok ()
  else .error ("unsupported source: " ++ source)

/-- Rust `sanitize_payload` (relay-core, annotate-only): deep-clone the
payload, set `_sanitized`, and add `_flags` when there are hits. -/
def sanitize_payload (patterns : List (String → Bool)) (source : String)
    (payload : Json) : Except String Json :=
  match ensure_supported_source source with
  | .error e => .error e
  | .ok _ =>
    let all_hits := find_all_hits patterns payload
    match payload with
    | .obj fields =>
        let annotated := insertKey fields "_sanitized" (.bool true)
        let flagged :=
          if all_hits.isEmpty then annotated
          else insertKey annotated "_flags" (.arr (all_hits.map fun e => mkFlag e.1 e.2))
        .ok (.obj flagged)
    | _ => .error "sanitized payload is not an object"

end RelayCore

namespace Embedded

/-- The `value` helper: follow a field path. -/
def jsonPath (payload : Json) : List String → Option Json
  | [] => some payload
  | segment :: rest =>
      (payload.getField segment).bind fun nested => jsonPath nested rest

/-- Rust `value_string`. -/
def value_string (payload : Json) (path : List String) : String :=
  (((jsonPath payload path).bind Json.asStr).getD "")

/-- Rust `value_bool`. -/
def value_bool (payload : Json) (path : List String) : Bool :=
  (((jsonPath payload path).bind Json.asBool).getD false)

/-- Rust `char::to_ascii_uppercase`. -/
def asciiUpper (c : Char) : Char :=
  if 97 ≤ c.toNat ∧ c.toNat ≤ 122 then Char.ofNat (c.toNat - 32) else c

/-- Rust `truncate`: cap at `max_len` unicode chars, appending the marker. -/
def truncate (text : String) (max_len : Nat) : String :=
  if text = "" ∨ text.length ≤ max_len then text
  else
    String.mk (text.data.take max_len) ++
      "\n[TRUNCATED: original was " ++ toString text.length ++ " chars]"

/-- Rust `fence`: wrap non-empty text in the untrusted-content sentinels. -/
def fence (text label : String) : String :=
  if text = "" then ""
  else
    let upper := String.mk (label.data.map asciiUpper)
    "--- BEGIN UNTRUSTED " ++ upper ++ " ---\n" ++ text ++
      "\n--- END UNTRUSTED " ++ upper ++ " ---"

def MAX_TITLE_LEN : Nat := 500
def MAX_BODY_LEN : Nat := 50000
def MAX_COMMENT_LEN : Nat := 20000
def MAX_BRANCH_LEN : Nat := 200

/-- Rust `sanitize_github` (reshape-and-fence).  Fields are listed in
insertion order; the claims below never depend on field order. -/
def sanitize_github (payload : Json) : Json :=
  let number :=
    ((payload.getField "number").orElse fun _ =>
      (payload.getField "pull_request").bind (·.getField "number")).getD .null
  let base : List (String × Json) :=
    [("action", .str (value_string payload ["action"])),
     ("number", number),
     ("sender", .obj [("login", .str (value_string payload ["sender", "login"]))]),
     ("repository", .obj
        [("full_name", .str (value_string payload ["repository", "full_name"])),
         ("default_branch", .str (value_string payload ["repository", "default_branch"]))])]
  let withInstallation :=
    if (payload.getField "installation").isSome then
      insertKey base "installation"
        (.obj [("id", (jsonPath payload ["installation", "id"]).getD .null)])
    else base
  let withPr :=
    match payload.getField "pull_request" with
    | none => withInstallation
    | some pr =>
        insertKey withInstallation "pull_request" (.obj
          [("number", (jsonPath pr ["number"]).getD .null),
           ("state", .str (value_string pr ["state"])),
           ("draft", .bool (value_bool pr ["draft"])),
           ("merged", .bool (value_bool pr ["merged"])),
           ("title", .str (fence (truncate (value_string pr ["title"]) MAX_TITLE_LEN) "pr title")),
           ("body", .str (fence (truncate (value_string pr ["body"]) MAX_BODY_LEN) "pr body")),
           ("head", .obj
              [("ref", .str (truncate (value_string pr ["head", "ref"]) MAX_BRANCH_LEN)),
               ("sha", .str (value_string pr ["head", "sha"]))]),
           ("base", .obj
              [("ref", .str (truncate (value_string pr ["base", "ref"]) MAX_BRANCH_LEN)),
               ("sha", .str (value_string pr ["base", "sha"]))]),
           ("user", .obj [("login", .str (value_string pr ["user", "login"]))]),
           ("changed_files", (jsonPath pr ["changed_files"]).getD .null),
           ("additions", (jsonPath pr ["additions"]).getD .null),
           ("deletions", (jsonPath pr ["deletions"]).getD .null)])
  let withReview :=
    match payload.getField "review" with
    | none => withPr
    | some review =>
        insertKey withPr "review" (.obj
          [("state", .str (value_string review ["state"])),
           ("body", .str (fence (truncate (value_string review ["body"]) MAX_COMMENT_LEN) "review body")),
           ("user", .obj [("login", .str (value_string review ["user", "login"]))])])
  let withComment :=
    match payload.getField "comment" with
    | none => withReview
    | some comment =>
        insertKey withReview "comment" (.obj
          [("id", (jsonPath comment ["id"]).getD .null),
           ("body", .str (fence (truncate (value_string comment ["body"]) MAX_COMMENT_LEN) "comment body")),
           ("user", .obj [("login", .str (value_string comment ["user", "login"]))]),
           ("path", .str (value_string comment ["path"])),
           ("line", (jsonPath comment ["line"]).getD .null)])
  .obj withComment

/-- Rust `sanitize_linear` (reshape-and-fence). -/
def sanitize_linear (payload : Json) : Json :=
  let base : List (String × Json) :=
    [("type", .str (value_string payload ["type"])),
     ("action", .str (value_string payload ["action"])),
     ("url", .str (value_string payload ["url"]))]
  match payload.getField "data" with
  | none => .obj base
  | some data =>
      let labels : List Json :=
        match (data.getField "labels").bind
            (fun v => match v with | .arr items => some items | _ => none) with
        | some entries =>
            entries.map fun label => .obj [("name", .str (value_string label ["name"]))]
        | none => []
      let out_data : List (String × Json) :=
        [("id", .str (value_string data ["id"])),
         ("identifier", .str (value_string data ["identifier"])),
         ("state", (jsonPath data ["state"]).getD (.obj [])),
         ("priority", (jsonPath data ["priority"]).getD .null),
         ("team", .obj [("key", .str (value_string data ["team", "key"]))]),
         ("assignee", .obj [("name", .str (value_string data ["assignee", "name"]))]),
         ("labels", .arr labels)]
      let title := value_string data ["title"]
      let withTitle :=
        if title ≠ "" then
          insertKey out_data "title" (.str (fence (truncate title MAX_TITLE_LEN) "issue title"))
        else out_data
      let description := value_string data ["description"]
      let withDescription :=
        if description ≠ "" then
          insertKey withTitle "description"
            (.str (fence (truncate description MAX_BODY_LEN) "issue description"))
        else withTitle
      let body := value_string data ["body"]
      let withBody :=
        if body ≠ "" then
          insertKey withDescription "body"
            (.str (fence (truncate body MAX_COMMENT_LEN) "comment body"))
        else withDescription
      .obj (insertKey base "data" (.obj withBody))

/-- Rust `sanitize_payload` (embedded variant, reshape-and-fence). -/
def sanitize_payload (patterns : List (String → Bool)) (source : String)
    (payload : Json) : Except String Json :=
  let all_hits := find_all_hits patterns payload
  let sanitized? : Except String Json :=
    if source = "github" then .ok (sanitize_github payload)
    else if source = "linear" then .ok (sanitize_linear payload)
    else .error ("unsupported source: " ++ source)
  sanitized?.bind fun sanitized =>
    match sanitized with
    | .obj fields =>
        let annotated := insertKey fields "_sanitized" (.bool true)
        let flagged :=
          if all_hits.isEmpty then annotated
          else insertKey annotated "_flags" (.arr (all_hits.map fun e => mkFlag e.1 e.2))
        .ok (.obj flagged)
    | _ => .error "sanitized payload is not an object"

end Embedded

/-! ### JSON rendering (serde compact `Value::to_string`), used only by
the `value_to_string` fallback of `src/src/main.rs`. -/

/-- Two lowercase hex digits, for serde's `\u00XX` control escapes. -/
def hexDigit (n : Nat) : Char :=
  if n < 10 then Char.ofNat (48 + n) else Char.ofNat (87 + n)

/-- serde's string escaping. -/
def escapeChar (c : Char) : String :=
  if c = '"' then "\\\""
  else if c = '\\' then "\\\\"
  else if c = '\n' then "\\n"
  else if c = '\r' then "\\r"
  else if c = '\t' then "\\t"
  else if c.toNat = 8 then "\\b"
  else if c.toNat = 12 then "\\f"
  else if c.toNat < 32 then
    "\\u00" ++ String.mk [hexDigit (c.toNat / 16), hexDigit (c.toNat % 16)]
  else String.mk [c]

def renderString (s : String) : String :=
  "\"" ++ String.join (s.data.map escapeChar) ++ "\""

mutual

def Json.render : Json → String
  | .null => "null"
  | .bool b => if b then "true" else "false"
  | .num n => toString n
  | .str s => renderString s
  | .arr items => "[" ++ renderItems items ++ "]"
  | .obj fields => "\x7b" ++ renderFields fields ++ "\x7d"

def renderItems : List Json → String
  | [] => ""
  | [item] => item.render
  | item :: rest => item.render ++ "," ++ renderItems rest

def renderFields : List (String × Json) → String
  | [] => ""
  | [(key, v)] => renderString key ++ ":" ++ v.render
  | (key, v) :: rest => renderString key ++ ":" ++ v.render ++ "," ++ renderFields rest

end

/-! ### Forward worker and HTTP hooks (`src/src/main.rs`) -/

/-- Rust `value_to_string`: strings verbatim, numbers in decimal, everything
else serialized. -/
def value_to_string (v : Json) : String :=
  match v with
  | .str text => text
  | .num n => toString n
  | other => other.render

/-- Rust `resolve_github_entity_id`: `pull_request.number`, then
`issue.number`, then `number`, else `"unknown"`. -/
def resolve_github_entity_id (payload : Json) : String :=
  match ((payload.getField "pull_request").bind (·.getField "number")).orElse
      (fun _ => ((payload.getField "issue").bind (·.getField "number")).orElse
        (fun _ => payload.getField "number")) with
  | some v => value_to_string v
  | none => "unknown"

/-- Rust `resolve_optional_string`. -/
def resolve_optional_string (path : List String) (payload : Json) : Option String :=
  (Embedded.jsonPath payload path).map value_to_string

/-- The configuration fields the embedded pipeline reads
(`src/src/config.rs`). -/
structure Config where
  dedup_retention_days : Int
  github_cooldown_seconds : Int
  linear_cooldown_seconds : Int
  linear_agent_user_id : Option String
  linear_timestamp_window_seconds : Int
  linear_enforce_timestamp_check : Bool
  forward_max_attempts : Nat
  forward_initial_backoff_seconds : Nat
  forward_max_backoff_seconds : Nat

/-- Rust `Config::dedup_retention_seconds` (`days.saturating_mul(86400)`;
saturation is immaterial on `Int`-embedded in-range `i64` days). -/
def Config.dedup_retention_seconds (c : Config) : Int :=
  c.dedup_retention_days * (24 * 60 * 60)

/-- Rust `u64` values of a well-formed parsed configuration, with
`forward_max_backoff_seconds` small enough that the `as i64` cast in the
worker is value-preserving. -/
def Config.WF (c : Config) : Prop :=
  c.forward_max_attempts ≤ U32_MAX ∧
  c.forward_initial_backoff_seconds ≤ U64_MAX ∧
  c.forward_max_backoff_seconds < 2 ^ 63

inductive ForwardAttemptOutcome where
  | Success
  | Transient (reason : String)
  | Permanent (reason : String)

/-- The Rust `as i64` cast of a `u64` value (`n ≤ U64_MAX`): a wrapping
conversion, negative from `2^63` on. -/
def i64_of_u64 (n : Nat) : Int :=
  (((n + 2 ^ 63) % 2 ^ 64 : Nat) : Int) - 2 ^ 63

/-- Rust `process_pending_event`.  The sanitize call is the embedded-variant
sanitizer on the event's source and payload; the forward attempt's
outcome (the HTTP exchange of `forward_once`) is external input.  Both
`epoch_seconds()` readings inside the function are taken as `now_epoch`;
the `backoff_seconds as i64` cast is the wrapping `i64_of_u64`. -/
def process_pending_event (cfg : Config) (patterns : List (String → Bool))
    (outcome : ForwardAttemptOutcome) (now_epoch : Int) (event : PendingEvent)
    (st : RelayStore) : RelayStore :=
  match Embedded.sanitize_payload patterns event.source.as_str event.payload with
  | .error _ => st.move_to_dlq event "sanitization_failed" now_epoch
  | .ok _ =>
    match outcome with
    | .Success => st
    | .Permanent _ => st.move_to_dlq event "forward_failed" now_epoch
    | .Transient _ =>
        let attempts' := min (event.attempts + 1) U32_MAX
        let event' := { event with attempts := attempts' }
        if attempts' ≥ cfg.forward_max_attempts then
          st.move_to_dlq event' "forward_failed" now_epoch
        else
          let backoff_seconds := compute_backoff_seconds
            cfg.forward_initial_backoff_seconds cfg.forward_max_backoff_seconds attempts'
          st.requeue_event
            { event' with next_retry_at_epoch := now_epoch + i64_of_u64 backoff_seconds }

/-- The responses a hook handler can produce (status code and the
`reason`/`error` body field). -/
inductive HookResponse where
  | unauthorized (error : String)
  | badRequest (error : String)
  | accepted (reason : String)
  | serverError (error : String)
  deriving DecidableEq, Repr

/-- HTTP status code of a handler response. -/
def HookResponse.status : HookResponse → Nat
  | .unauthorized _ => 401
  | .badRequest _ => 400
  | .accepted _ => 202
  | .serverError _ => 500

/-- Rust `github_hook` after signature verification and JSON parsing: from
the `X-GitHub-Event` / `X-GitHub-Delivery` header reads (already trimmed
and non-empty, `none` when absent) to the enqueue-result mapping.
`event_id` is the freshly generated UUID and `now_epoch` the
`epoch_seconds()` readings of the handler. -/
def github_hook_core (cfg : Config) (event_name? delivery_id? : Option String)
    (payload : Json) (event_id : String) (now_epoch : Int) (st : RelayStore) :
    HookResponse × RelayStore :=
  match event_name? with
  | none => (.badRequest "missing X-GitHub-Event", st)
  | some event_name =>
  match delivery_id? with
  | none => (.badRequest "missing X-GitHub-Delivery", st)
  | some delivery_id =>
  let action := (((payload.getField "action").bind Json.asStr).getD "")
  if action = "" then (.badRequest "missing action in payload", st)
  else if !is_supported_github_event_action event_name action then
    (.accepted "filtered", st)
  else
    let sender_login :=
      ((((payload.getField "sender").bind (·.getField "login")).bind Json.asStr).getD "")
    if sender_login.endsWith "[bot]" then (.accepted "bot_sender", st)
    else
      let entity_id := resolve_github_entity_id payload
      let repo_name :=
        ((((payload.getField "repository").bind (·.getField "full_name")).bind Json.asStr).getD
          "unknown")
      let dedup_key := github_dedup_key delivery_id action entity_id
      let cooldown_key := github_cooldown_key repo_name entity_id
      let installation_id := resolve_optional_string ["installation", "id"] payload
      let event : PendingEvent :=
        { event_id := event_id
          source := .Github
          dedup_key := dedup_key
          cooldown_key := cooldown_key
          action := action
          entity_id := entity_id
          payload := payload
          metadata :=
            { delivery_id := delivery_id
              event_name := some event_name
              installation_id := installation_id
              team_key := none }
          attempts := 0
          next_retry_at_epoch := now_epoch
          created_at_epoch := now_epoch }
      match st.enqueue_pending_event event cfg.dedup_retention_seconds
          cfg.github_cooldown_seconds now_epoch with
      | (.Enqueued, st') => (.accepted "enqueued", st')
      | (.Duplicate, st') => (.accepted "duplicate_delivery", st')
      | (.Cooldown, st') => (.accepted "cooldown", st')

/-- Rust `linear_hook` after signature verification and JSON parsing, with
the `Linear-Delivery` header read as `delivery_id?`. -/
def linear_hook_core (cfg : Config) (delivery_id? : Option String)
    (payload : Json) (event_id : String) (now_epoch : Int) (st : RelayStore) :
    HookResponse × RelayStore :=
  match delivery_id? with
  | none => (.badRequest "missing Linear-Delivery", st)
  | some delivery_id =>
  let event_type := (((payload.getField "type").bind Json.asStr).getD "")
  let action := (((payload.getField "action").bind Json.asStr).getD "")
  if event_type = "" ∨ action = "" then
    (.badRequest "missing type or action in payload", st)
  else if !is_supported_linear_type event_type then
    (.accepted "filtered", st)
  else if !verify_linear_timestamp_window payload now_epoch
      cfg.linear_timestamp_window_seconds cfg.linear_enforce_timestamp_check then
    (.unauthorized "invalid or stale webhookTimestamp", st)
  else
    let agent_user_hit : Bool :=
      match cfg.linear_agent_user_id with
      | none => false
      | some agent_user_id =>
          let actor_id :=
            ((((payload.getField "data").bind (·.getField "userId")).bind Json.asStr).getD "")
          actor_id ≠ "" ∧ actor_id = agent_user_id
    if agent_user_hit then (.accepted "agent_user", st)
    else
      let entity_id :=
        ((((payload.getField "data").bind (·.getField "id")).bind Json.asStr).getD "unknown")
      let team_key :=
        (((((payload.getField "data").bind (·.getField "team")).bind
            (·.getField "key")).bind Json.asStr).getD "unknown")
      let dedup_key := linear_dedup_key delivery_id action entity_id
      let cooldown_key := linear_cooldown_key team_key entity_id
      let event : PendingEvent :=
        { event_id := event_id
          source := .Linear
          dedup_key := dedup_key
          cooldown_key := cooldown_key
          action := action
          entity_id := entity_id
          payload := payload
          metadata :=
            { delivery_id := delivery_id
              event_name := some event_type
              installation_id := none
              team_key := some team_key }
          attempts := 0
          next_retry_at_epoch := now_epoch
          created_at_epoch := now_epoch }
      match st.enqueue_pending_event event cfg.dedup_retention_seconds
          cfg.linear_cooldown_seconds now_epoch with
      | (.Enqueued, st') => (.accepted "enqueued", st')
      | (.Duplicate, st') => (.accepted "duplicate_delivery", st')
      | (.Cooldown, st') => (.accepted "cooldown", st')

/-- The empty store created by `RelayStore::open` on a fresh database. -/
def RelayStore.empty : RelayStore :=
  { pending_events := [], dlq_events := [], dedup_index := [], cooldown_index := [] }

/-- Store states reachable through the embedded pipeline: ingress
enqueues events with `attempts = 0` (both hook handlers build them so),
the worker pops a due event and resolves it through
`process_pending_event`, and the admin route replays DLQ rows. -/
inductive Reachable (cfg : Config) (patterns : List (String → Bool)) : RelayStore → Prop where
  | empty : Reachable cfg patterns RelayStore.empty
  | enqueue {st : RelayStore} (event : PendingEvent)
      (dedup_retention_seconds cooldown_seconds now_epoch : Int) :
      Reachable cfg patterns st → event.attempts = 0 →
      Reachable cfg patterns
        (st.enqueue_pending_event event dedup_retention_seconds cooldown_seconds now_epoch).2
  | workerStep {st : RelayStore} {event : PendingEvent} {st' : RelayStore}
      (pop_now : Int) (outcome : ForwardAttemptOutcome) (process_now : Int) :
      Reachable cfg patterns st → st.pop_due_event pop_now = (some event, st') →
      Reachable cfg patterns (process_pending_event cfg patterns outcome process_now event st')
  | replay {st : RelayStore} (event_id : String) (now_epoch : Int) :
      Reachable cfg patterns st →
      Reachable cfg patterns (st.replay_dlq_event event_id now_epoch).2

/-! ## Association-list lemmas -/

theorem lookupKey_insertKey_self {α : Type} (l : List (String × α)) (k : String) (v : α) :
    lookupKey (insertKey l k v) k = some v := by
  induction l with
  | nil => simp [insertKey, lookupKey]
  | cons head rest ih =>
      obtain ⟨k0, v0⟩ := head
      by_cases h : k0 = k
      · simp [insertKey, h, lookupKey]
      · simp [insertKey, h, lookupKey, ih]

theorem lookupKey_insertKey_ne {α : Type} (l : List (String × α)) (k k' : String) (v : α)
    (h : k' ≠ k) : lookupKey (insertKey l k v) k' = lookupKey l k' := by
  induction l with
  | nil => simp [insertKey, lookupKey, Ne.symm h]
  | cons head rest ih =>
      obtain ⟨k0, v0⟩ := head
      by_cases h0 : k0 = k
      · subst h0
        simp only [insertKey, if_pos rfl, lookupKey]
        rw [if_neg (Ne.symm h), if_neg (Ne.symm h)]
      · simp only [insertKey, if_neg h0, lookupKey]
        by_cases h1 : k0 = k'
        · rw [if_pos h1, if_pos h1]
        · rw [if_neg h1, if_neg h1]
          exact ih

theorem mem_insertKey {α : Type} {l : List (String × α)} {k : String} {v : α}
    {entry : String × α} (h : entry ∈ insertKey l k v) : entry = (k, v) ∨ entry ∈ l := by
  induction l with
  | nil => simpa [insertKey] using h
  | cons head rest ih =>
      obtain ⟨k0, v0⟩ := head
      by_cases h0 : k0 = k
      · simp only [insertKey, if_pos h0, List.mem_cons] at h
        rcases h with h | h
        · exact Or.inl h
        · exact Or.inr (List.mem_cons_of_mem _ h)
      · simp only [insertKey, if_neg h0, List.mem_cons] at h
        rcases h with h | h
        · exact Or.inr (by simp [h])
        · rcases ih h with h' | h'
          · exact Or.inl h'
          · exact Or.inr (List.mem_cons_of_mem _ h')

theorem lookupKey_eraseKey_self {α : Type} (l : List (String × α)) (k : String) :
    lookupKey (eraseKey l k) k = none := by
  induction l with
  | nil => simp [eraseKey, lookupKey]
  | cons head rest ih =>
      obtain ⟨k0, v0⟩ := head
      by_cases h0 : k0 = k
      · simpa [eraseKey, h0] using ih
      · simpa [eraseKey, lookupKey, h0] using ih

theorem mem_eraseKey {α : Type} {l : List (String × α)} {k : String} {entry : String × α} :
    entry ∈ eraseKey l k ↔ entry ∈ l ∧ entry.1 ≠ k := by
  simp [eraseKey]

theorem lookupKey_eq_none_of_forall_ne {α : Type} {l : List (String × α)} {k : String}
    (h : ∀ e ∈ l, e.1 ≠ k) : lookupKey l k = none := by
  induction l with
  | nil => rfl
  | cons head rest ih =>
      simp only [lookupKey]
      rw [if_neg (h head (by simp))]
      exact ih (fun e he => h e (List.mem_cons_of_mem _ he))

/-- With unique keys, pruning commutes with lookup: the looked-up entry
survives exactly when it has not expired. -/
theorem lookupKey_prune_expired {l : List (String × Int)} (hnodup : (l.map Prod.fst).Nodup)
    (k : String) (now : Int) :
    lookupKey (prune_expired l now) k =
      match lookupKey l k with
      | some e => if e > now then some e else none
      | none => none := by
  induction l with
  | nil => simp [prune_expired, lookupKey]
  | cons head rest ih =>
      obtain ⟨k0, v0⟩ := head
      simp only [List.map_cons, List.nodup_cons] at hnodup
      by_cases h0 : k0 = k
      · subst h0
        by_cases hexp : v0 > now
        · simp [prune_expired, lookupKey, hexp]
        · have hnone : lookupKey (prune_expired rest now) k0 = none := by
            apply lookupKey_eq_none_of_forall_ne
            intro e he hk
            have hmem : e ∈ rest := List.mem_of_mem_filter he
            exact hnodup.1 (hk ▸ List.mem_map_of_mem Prod.fst hmem)
          have hstep : prune_expired ((k0, v0) :: rest) now = prune_expired rest now := by
            simp [prune_expired, hexp]
          rw [hstep, hnone]
          simp [lookupKey, hexp]
      · by_cases hexp : v0 > now
        · simpa [prune_expired, List.filter_cons, lookupKey, hexp, h0] using ih hnodup.2
        · simpa [prune_expired, List.filter_cons, lookupKey, hexp, h0] using ih hnodup.2

/-! ## C1 — in-memory idempotency store -/

/-- C1 counterexample.  With `dedup_ttl = 60 < cooldown_ttl = 300`, a
first `check("k", "c", 0)` accepts; at `t2 = 60` the dedup TTL has
elapsed (`t2 − t1 ≥ dedup_ttl`), yet the second `check("k", "c", 60)`
returns `Cooldown`, not `Accept` as the claim's TTL-elapse clause
states. -/
theorem C1_counterexample :
    (IdempotencyStore.check 60 300 ⟨[], []⟩ "k" (some "c") 0).1 = .Accept
    ∧ (IdempotencyStore.check 60 300
        (IdempotencyStore.check 60 300 ⟨[], []⟩ "k" (some "c") 0).2 "k" (some "c") 60).1
      = .Cooldown := by
  constructor <;> rfl

/-- C1 (amended): for non-empty keys and a fresh store, a first
`check(k, c, t1)` returns `Accept`; a second `check(k, c, t2)` with
`t2 − t1 < dedup_ttl` returns `Duplicate`; a `check(k2, c, t2)` with a
distinct non-empty dedup key and `t2 − t1 < cooldown_ttl` returns
`Cooldown`; once BOTH TTLs have elapsed the same-key call returns
`Accept` (the dedup TTL alone does not suffice while the cooldown is
active), and the distinct-key call returns `Accept` once the cooldown
TTL has elapsed.  A call with an empty dedup key always returns `Accept`
and leaves the maps untouched. -/
theorem C1_idempotency_check_amended (dedup_ttl cooldown_ttl t1 t2 : Int)
    (k k2 c : String) (hk : k ≠ "") (hk2 : k2 ≠ "") (hne : k2 ≠ k) (hc : c ≠ "")
    (r1 : IdempotencyDecision) (s1 : IdemState)
    (hfirst : IdempotencyStore.check dedup_ttl cooldown_ttl ⟨[], []⟩ k (some c) t1 = (r1, s1)) :
    r1 = .Accept
    ∧ (t2 - t1 < dedup_ttl →
        (IdempotencyStore.check dedup_ttl cooldown_ttl s1 k (some c) t2).1 = .Duplicate)
    ∧ (t2 - t1 < cooldown_ttl →
        (IdempotencyStore.check dedup_ttl cooldown_ttl s1 k2 (some c) t2).1 = .Cooldown)
    ∧ (dedup_ttl ≤ t2 - t1 → cooldown_ttl ≤ t2 - t1 →
        (IdempotencyStore.check dedup_ttl cooldown_ttl s1 k (some c) t2).1 = .Accept)
    ∧ (cooldown_ttl ≤ t2 - t1 →
        (IdempotencyStore.check dedup_ttl cooldown_ttl s1 k2 (some c) t2).1 = .Accept)
    ∧ (∀ st ck t, IdempotencyStore.check dedup_ttl cooldown_ttl st "" ck t = (.Accept, st)) := by
  have hval : r1 = .Accept ∧ s1 = ⟨[(k, t1 + dedup_ttl)], [(c, t1 + cooldown_ttl)]⟩ := by
    rw [IdempotencyStore.check] at hfirst
    simp only [if_neg hk] at hfirst
    simp [prune_expired, lookupKey, insertKey, if_neg hc, Prod.ext_iff] at hfirst
    exact ⟨hfirst.1.symm, hfirst.2.symm⟩
  obtain ⟨hr1, hs1⟩ := hval
  subst hs1
  refine ⟨hr1, ?_, ?_, ?_, ?_, ?_⟩
  · intro hlt
    have hkeep : t1 + dedup_ttl > t2 := by omega
    rw [IdempotencyStore.check]
    simp [prune_expired, lookupKey, hk, hkeep]
  · intro hlt
    have hkeep : t1 + cooldown_ttl > t2 := by omega
    rw [IdempotencyStore.check]
    by_cases hd : t1 + dedup_ttl > t2 <;>
      simp [prune_expired, lookupKey, insertKey, hk2, Ne.symm hne, hc, hd, hkeep]
  · intro hd hcw
    have hdrop : ¬ t1 + dedup_ttl > t2 := by omega
    have hcdrop : ¬ t1 + cooldown_ttl > t2 := by omega
    rw [IdempotencyStore.check]
    simp [prune_expired, lookupKey, insertKey, hk, hc, hdrop, hcdrop]
  · intro hcw
    have hcdrop : ¬ t1 + cooldown_ttl > t2 := by omega
    rw [IdempotencyStore.check]
    by_cases hd : t1 + dedup_ttl > t2 <;>
      simp [prune_expired, lookupKey, insertKey, hk2, Ne.symm hne, hc, hd, hcdrop]
  · intro st ck t
    rw [IdempotencyStore.check]
    simp

/-- Witness for `C1_idempotency_check_amended` at concrete inputs. -/
theorem C1_witness :
    (IdempotencyStore.check 60 30
      (IdempotencyStore.check 60 30 ⟨[], []⟩ "a" (some "c") 0).2 "a" (some "c") 10).1
    = .Duplicate := by
  have h := C1_idempotency_check_amended 60 30 0 10 "a" "b" "c"
    (by decide) (by decide) (by decide) (by decide)
    (IdempotencyStore.check 60 30 ⟨[], []⟩ "a" (some "c") 0).1
    (IdempotencyStore.check 60 30 ⟨[], []⟩ "a" (some "c") 0).2 rfl
  exact h.2.1 (by decide)

/-! ## C2 — persistent enqueue refines the in-memory check -/

/-- A concrete event used by counterexamples and witnesses. -/
def sampleEvent (eid dk ck : String) : PendingEvent :=
  { event_id := eid
    source := .Github
    dedup_key := dk
    cooldown_key := ck
    action := "opened"
    entity_id := "42"
    payload := .null
    metadata :=
      { delivery_id := "d1"
        event_name := some "pull_request"
        installation_id := none
        team_key := none }
    attempts := 0
    next_retry_at_epoch := 0
    created_at_epoch := 0 }

/-- C2 counterexample.  `IdempotencyStore::check` accepts every empty
dedup key without consulting the map, but `enqueue_pending_event` has no
empty-key guard: on the same index state (`"" ↦ 100`, `now = 0`) the
persistent store answers `Duplicate` while the in-memory check answers
`Accept`. -/
theorem C2_counterexample :
    (RelayStore.enqueue_pending_event
        ⟨[], [], [("", 100)], []⟩ (sampleEvent "e1" "" "c") 1000 30 0).1 = .Duplicate
    ∧ (IdempotencyStore.check 1000 30 ⟨[("", 100)], []⟩ "" (some "c") 0).1 = .Accept := by
  constructor <;> rfl

/-- C2 (amended): for events whose dedup and cooldown keys are both
non-empty, `enqueue_pending_event` returns the decision of
`IdempotencyStore::check` on the same (unique-keyed) index state under
the mapping `Enqueued ↔ Accept`, `Duplicate ↔ Duplicate`,
`Cooldown ↔ Cooldown`; exactly on `Enqueued` the event row is inserted
into the pending table keyed by its event id, and on `Duplicate` the
aborted transaction leaves every table unchanged. -/
theorem C2_enqueue_refines_check (st : RelayStore) (event : PendingEvent)
    (dedup_ttl cooldown_ttl now : Int)
    (hdk : event.dedup_key ≠ "") (hck : event.cooldown_key ≠ "")
    (hnd : (st.dedup_index.map Prod.fst).Nodup)
    (hnc : (st.cooldown_index.map Prod.fst).Nodup)
    (result : EnqueueResult) (st' : RelayStore)
    (heq : st.enqueue_pending_event event dedup_ttl cooldown_ttl now = (result, st'))
    (decision : IdempotencyDecision) (idem' : IdemState)
    (hcheck : IdempotencyStore.check dedup_ttl cooldown_ttl
        ⟨st.dedup_index, st.cooldown_index⟩ event.dedup_key (some event.cooldown_key) now
      = (decision, idem')) :
    (result = .Enqueued ↔ decision = .Accept)
    ∧ (result = .Duplicate ↔ decision = .Duplicate)
    ∧ (result = .Cooldown ↔ decision = .Cooldown)
    ∧ (result = .Enqueued →
        st'.pending_events = insertKey st.pending_events event.event_id event
        ∧ lookupKey st'.pending_events event.event_id = some event)
    ∧ (result ≠ .Enqueued → st'.pending_events = st.pending_events)
    ∧ (result = .Duplicate → st' = st) := by
  rw [RelayStore.enqueue_pending_event] at heq
  rw [IdempotencyStore.check] at hcheck
  simp only [if_neg hdk] at hcheck
  rw [lookupKey_prune_expired hnd] at hcheck
  rcases hl : lookupKey st.dedup_index event.dedup_key with _ | e
  · -- dedup key absent: both proceed to the cooldown stage
    simp only [hl] at heq hcheck
    rw [lookupKey_prune_expired hnc] at hcheck
    rcases hl2 : lookupKey st.cooldown_index event.cooldown_key with _ | e2
    · simp [hl2, hck, Prod.ext_iff] at heq hcheck
      obtain ⟨hres, hst⟩ := heq
      obtain ⟨hdec, -⟩ := hcheck
      subst hres hst hdec
      refine ⟨by simp, by simp, by simp, ?_, by simp, by simp⟩
      intro _
      exact ⟨rfl, lookupKey_insertKey_self _ _ _⟩
    · by_cases he2 : e2 > now
      · simp [hl2, hck, he2, Prod.ext_iff] at heq hcheck
        obtain ⟨hres, hst⟩ := heq
        obtain ⟨hdec, -⟩ := hcheck
        subst hres hst hdec
        exact ⟨by simp, by simp, by simp, by simp, fun _ => rfl, by simp⟩
      · simp [hl2, hck, he2, Prod.ext_iff] at heq hcheck
        obtain ⟨hres, hst⟩ := heq
        obtain ⟨hdec, -⟩ := hcheck
        subst hres hst hdec
        refine ⟨by simp, by simp, by simp, ?_, by simp, by simp⟩
        intro _
        exact ⟨rfl, lookupKey_insertKey_self _ _ _⟩
  · by_cases he : e > now
    · -- active dedup entry: both answer Duplicate, transaction aborts
      simp [hl, he, Prod.ext_iff] at heq hcheck
      obtain ⟨hres, hst⟩ := heq
      obtain ⟨hdec, -⟩ := hcheck
      subst hres hst hdec
      exact ⟨by simp, by simp, by simp, by simp, fun _ => rfl, fun _ => rfl⟩
    · -- expired dedup entry: overwritten, proceed to the cooldown stage
      simp only [hl, he, decide_eq_true_eq, Bool.false_eq_true, reduceIte] at heq hcheck
      rw [lookupKey_prune_expired hnc] at hcheck
      rcases hl2 : lookupKey st.cooldown_index event.cooldown_key with _ | e2
      · simp [hl2, hck, Prod.ext_iff] at heq hcheck
        obtain ⟨hres, hst⟩ := heq
        obtain ⟨hdec, -⟩ := hcheck
        subst hres hst hdec
        refine ⟨by simp, by simp, by simp, ?_, by simp, by simp⟩
        intro _
        exact ⟨rfl, lookupKey_insertKey_self _ _ _⟩
      · by_cases he2 : e2 > now
        · simp [hl2, hck, he2, Prod.ext_iff] at heq hcheck
          obtain ⟨hres, hst⟩ := heq
          obtain ⟨hdec, -⟩ := hcheck
          subst hres hst hdec
          exact ⟨by simp, by simp, by simp, by simp, fun _ => rfl, by simp⟩
        · simp [hl2, hck, he2, Prod.ext_iff] at heq hcheck
          obtain ⟨hres, hst⟩ := heq
          obtain ⟨hdec, -⟩ := hcheck
          subst hres hst hdec
          refine ⟨by simp, by simp, by simp, ?_, by simp, by simp⟩
          intro _
          exact ⟨rfl, lookupKey_insertKey_self _ _ _⟩

/-- Witness for `C2_enqueue_refines_check` at concrete inputs. -/
theorem C2_witness :
    ((RelayStore.enqueue_pending_event RelayStore.empty (sampleEvent "e1" "d" "c") 1000 30 0).1
        = .Enqueued ↔ True)
    ∨ (RelayStore.enqueue_pending_event RelayStore.empty
        (sampleEvent "e1" "d" "c") 1000 30 0).1 = .Enqueued := by
  have h := C2_enqueue_refines_check RelayStore.empty (sampleEvent "e1" "d" "c") 1000 30 0
    (by decide) (by decide) (by simp [RelayStore.empty]) (by simp [RelayStore.empty])
    (RelayStore.enqueue_pending_event RelayStore.empty (sampleEvent "e1" "d" "c") 1000 30 0).1
    (RelayStore.enqueue_pending_event RelayStore.empty (sampleEvent "e1" "d" "c") 1000 30 0).2
    rfl
    (IdempotencyStore.check 1000 30 ⟨RelayStore.empty.dedup_index,
        RelayStore.empty.cooldown_index⟩ (sampleEvent "e1" "d" "c").dedup_key
        (some (sampleEvent "e1" "d" "c").cooldown_key) 0).1
    (IdempotencyStore.check 1000 30 ⟨RelayStore.empty.dedup_index,
        RelayStore.empty.cooldown_index⟩ (sampleEvent "e1" "d" "c").dedup_key
        (some (sampleEvent "e1" "d" "c").cooldown_key) 0).2
    rfl
  exact Or.inr (h.1.mpr (by decide))

/-! ## C3 — pop_due_event selects a minimal due row -/

theorem selectStep_fold_spec (now : Int) (rows : List (String × PendingEvent)) :
    ∀ acc : Option (String × PendingEvent),
    (rows.foldl (selectStep now) acc = none ↔
      acc = none ∧ ∀ p ∈ rows, ¬ p.2.next_retry_at_epoch ≤ now)
    ∧ (∀ q, rows.foldl (selectStep now) acc = some q →
        ((q ∈ rows ∧ q.2.next_retry_at_epoch ≤ now) ∨ acc = some q)
        ∧ (∀ p ∈ rows, p.2.next_retry_at_epoch ≤ now →
            q.2.next_retry_at_epoch ≤ p.2.next_retry_at_epoch)
        ∧ (∀ b, acc = some b → q.2.next_retry_at_epoch ≤ b.2.next_retry_at_epoch)) := by
  induction rows with
  | nil =>
      intro acc
      constructor
      · simp
      · intro q hq
        have hq' : acc = some q := by simpa using hq
        refine ⟨Or.inr hq', by simp, ?_⟩
        intro b hb
        rw [hb] at hq'
        obtain rfl := Option.some.inj hq'
        exact le_refl _
  | cons row rest ih =>
      intro acc
      have hstep := ih (selectStep now acc row)
      constructor
      · simp only [List.foldl_cons]
        rw [hstep.1]
        constructor
        · rintro ⟨hnone, hrest⟩
          by_cases hdue : row.2.next_retry_at_epoch ≤ now
          · exfalso
            rcases acc with _ | b
            · simp [selectStep, hdue] at hnone
            · simp only [selectStep, if_pos hdue] at hnone
              split at hnone <;> simp_all
          · rcases acc with _ | b
            · refine ⟨rfl, ?_⟩
              intro p hp
              rcases List.mem_cons.mp hp with h | h
              · rw [h]; exact hdue
              · exact hrest p h
            · simp [selectStep, hdue] at hnone
        · rintro ⟨hnone, hall⟩
          subst hnone
          have hdue : ¬ row.2.next_retry_at_epoch ≤ now := hall row (by simp)
          exact ⟨by simp [selectStep, hdue], fun p hp => hall p (List.mem_cons_of_mem _ hp)⟩
      · intro q hq
        simp only [List.foldl_cons] at hq
        obtain ⟨hmem, hmin, hacc⟩ := hstep.2 q hq
        by_cases hdue : row.2.next_retry_at_epoch ≤ now
        · rcases acc with _ | b
          · -- acc = none: the step picks the row
            have hsel : selectStep now none row = some row := by simp [selectStep, hdue]
            rw [hsel] at hmem hacc
            constructor
            · rcases hmem with ⟨h1, h2⟩ | h1
              · exact Or.inl ⟨List.mem_cons_of_mem _ h1, h2⟩
              · obtain rfl := Option.some.inj h1
                exact Or.inl ⟨by simp, hdue⟩
            refine ⟨?_, fun b hb => Option.noConfusion hb⟩
            intro p hp hpd
            rcases List.mem_cons.mp hp with h | h
            · rw [h]; exact hacc row rfl
            · exact hmin p h hpd
          · by_cases hge : row.2.next_retry_at_epoch ≥ b.2.next_retry_at_epoch
            · have hsel : selectStep now (some b) row = some b := by
                simp [selectStep, hdue, hge]
              rw [hsel] at hmem hacc
              constructor
              · rcases hmem with ⟨h1, h2⟩ | h1
                · exact Or.inl ⟨List.mem_cons_of_mem _ h1, h2⟩
                · exact Or.inr h1
              refine ⟨?_, ?_⟩
              · intro p hp hpd
                rcases List.mem_cons.mp hp with h | h
                · rw [h]
                  calc q.2.next_retry_at_epoch ≤ b.2.next_retry_at_epoch := hacc b rfl
                    _ ≤ row.2.next_retry_at_epoch := hge
                · exact hmin p h hpd
              · intro b' hb'
                have hbb : b' = b := Option.some.inj hb'.symm
                rw [hbb]
                exact hacc b rfl
            · have hsel : selectStep now (some b) row = some row := by
                simp [selectStep, hdue, hge]
              rw [hsel] at hmem hacc
              have hqrow := hacc row rfl
              constructor
              · rcases hmem with ⟨h1, h2⟩ | h1
                · exact Or.inl ⟨List.mem_cons_of_mem _ h1, h2⟩
                · obtain rfl := Option.some.inj h1
                  exact Or.inl ⟨by simp, hdue⟩
              refine ⟨?_, ?_⟩
              · intro p hp hpd
                rcases List.mem_cons.mp hp with h | h
                · rw [h]; exact hqrow
                · exact hmin p h hpd
              · intro b' hb'
                have hbb : b' = b := Option.some.inj hb'.symm
                rw [hbb]
                have hlt : row.2.next_retry_at_epoch ≤ b.2.next_retry_at_epoch := by omega
                exact le_trans hqrow hlt
        · have hsel : selectStep now acc row = acc := by simp [selectStep, hdue]
          rw [hsel] at hmem hacc
          constructor
          · rcases hmem with ⟨h1, h2⟩ | h1
            · exact Or.inl ⟨List.mem_cons_of_mem _ h1, h2⟩
            · exact Or.inr h1
          refine ⟨?_, hacc⟩
          intro p hp hpd
          rcases List.mem_cons.mp hp with h | h
          · rw [h] at hpd
            exact absurd hpd hdue
          · exact hmin p h hpd

theorem eraseKey_length_of_mem {α : Type} {l : List (String × α)} {k : String} {v : α}
    (hnodup : (l.map Prod.fst).Nodup) (hmem : (k, v) ∈ l) :
    (eraseKey l k).length + 1 = l.length := by
  induction l with
  | nil => cases hmem
  | cons head rest ih =>
      simp only [List.map_cons, List.nodup_cons] at hnodup
      rcases List.mem_cons.mp hmem with heq | hmem'
      · have hhead : head.1 = k := by rw [← heq]
        have hkeep : eraseKey rest k = rest := by
          apply List.filter_eq_self.mpr
          intro e he
          simp only [ne_eq, decide_not, Bool.not_eq_eq_eq_not, Bool.not_true,
            decide_eq_false_iff_not]
          intro hk
          apply hnodup.1
          rw [hhead, ← hk]
          exact List.mem_map_of_mem Prod.fst he
        have hdrop : eraseKey (head :: rest) k = eraseKey rest k := by
          simp [eraseKey, List.filter_cons, hhead]
        rw [hdrop, hkeep]
        simp
      · have hne : head.1 ≠ k := by
          intro hk
          apply hnodup.1
          rw [hk]
          exact List.mem_map_of_mem Prod.fst hmem'
        have hstep : eraseKey (head :: rest) k = head :: eraseKey rest k := by
          simp [eraseKey, List.filter_cons, hne]
        rw [hstep]
        simp only [List.length_cons]
        have := ih hnodup.2 hmem'
        omega

/-- C3: `pop_due_event` returns `None` exactly when no pending row is
due (and then changes nothing); otherwise it returns a due row with the
smallest `next_retry_at_epoch` among all due rows and deletes exactly
that row, leaving every other row and the other three tables
unchanged. -/
theorem C3_pop_due_event (st : RelayStore) (now : Int)
    (hnodup : (st.pending_events.map Prod.fst).Nodup)
    (res : Option PendingEvent) (st' : RelayStore)
    (hpop : st.pop_due_event now = (res, st')) :
    (res = none ↔ ∀ p ∈ st.pending_events, ¬ p.2.next_retry_at_epoch ≤ now)
    ∧ (res = none → st' = st)
    ∧ (∀ ev, res = some ev →
        ev.next_retry_at_epoch ≤ now
        ∧ (∀ p ∈ st.pending_events, p.2.next_retry_at_epoch ≤ now →
            ev.next_retry_at_epoch ≤ p.2.next_retry_at_epoch)
        ∧ ∃ id, (id, ev) ∈ st.pending_events
            ∧ st'.pending_events = eraseKey st.pending_events id
            ∧ (id, ev) ∉ st'.pending_events
            ∧ (∀ p ∈ st.pending_events, p.1 ≠ id → p ∈ st'.pending_events)
            ∧ (∀ p ∈ st'.pending_events, p ∈ st.pending_events)
            ∧ st'.pending_events.length + 1 = st.pending_events.length
            ∧ st'.dlq_events = st.dlq_events
            ∧ st'.dedup_index = st.dedup_index
            ∧ st'.cooldown_index = st.cooldown_index) := by
  have hspec := selectStep_fold_spec now st.pending_events none
  rcases hsel : selectDue st.pending_events now with _ | q
  · have hpop' : (res, st') = (none, st) := by
      rw [← hpop, RelayStore.pop_due_event, hsel]
    injection hpop' with hres hst
    subst hres
    subst hst
    have hnone := (hspec.1).mp (by simpa [selectDue] using hsel)
    refine ⟨⟨fun _ => hnone.2, fun _ => rfl⟩, fun _ => rfl, ?_⟩
    exact fun ev hev => Option.noConfusion hev
  · obtain ⟨id, ev⟩ := q
    have hpop' : (res, st') =
        (some ev, { st with pending_events := eraseKey st.pending_events id }) := by
      rw [← hpop, RelayStore.pop_due_event, hsel]
    injection hpop' with hres hst
    subst hres
    subst hst
    obtain ⟨hmem, hmin, -⟩ := hspec.2 (id, ev) (by simpa [selectDue] using hsel)
    have hmem' : (id, ev) ∈ st.pending_events ∧ ev.next_retry_at_epoch ≤ now := by
      rcases hmem with h | h
      · exact h
      · exact Option.noConfusion h
    refine ⟨⟨fun h => Option.noConfusion h, ?_⟩, fun h => Option.noConfusion h, ?_⟩
    · intro hall
      exact absurd hmem'.2 (hall (id, ev) hmem'.1)
    · intro ev' hev'
      obtain rfl := Option.some.inj hev'
      refine ⟨hmem'.2, hmin, id, hmem'.1, rfl, ?_, ?_, ?_, ?_, rfl, rfl, rfl⟩
      · intro hin
        exact (mem_eraseKey.mp hin).2 rfl
      · intro p hp hne
        exact mem_eraseKey.mpr ⟨hp, hne⟩
      · intro p hp
        exact (mem_eraseKey.mp hp).1
      · exact eraseKey_length_of_mem hnodup hmem'.1

/-- Witness for `C3_pop_due_event` at a concrete store. -/
theorem C3_witness :
    (sampleEvent "a" "d" "c").next_retry_at_epoch ≤ 5 := by
  have h := C3_pop_due_event ⟨[("a", sampleEvent "a" "d" "c")], [], [], []⟩ 5 (by simp)
    ((RelayStore.mk [("a", sampleEvent "a" "d" "c")] [] [] []).pop_due_event 5).1
    ((RelayStore.mk [("a", sampleEvent "a" "d" "c")] [] [] []).pop_due_event 5).2 rfl
  exact (h.2.2 (sampleEvent "a" "d" "c") rfl).1

/-! ## C4 — DLQ replay -/

/-- C4: when a DLQ row with the given id exists, `replay_dlq_event`
returns `true`, removes the DLQ row, and inserts the contained pending
event — with `attempts = 0` and `next_retry_at_epoch = now` — into the
pending table under that id, leaving the dedup and cooldown indexes
unchanged; when no such row exists it returns `false` and leaves the
whole store unchanged. -/
theorem C4_replay_dlq_event (st : RelayStore) (event_id : String) (now : Int)
    (res : Bool) (st' : RelayStore)
    (hrep : st.replay_dlq_event event_id now = (res, st')) :
    (lookupKey st.dlq_events event_id = none → res = false ∧ st' = st)
    ∧ (∀ d, lookupKey st.dlq_events event_id = some d →
        res = true
        ∧ st'.dlq_events = eraseKey st.dlq_events event_id
        ∧ lookupKey st'.dlq_events event_id = none
        ∧ st'.pending_events = insertKey st.pending_events event_id
            { d.pending_event with attempts := 0, next_retry_at_epoch := now }
        ∧ lookupKey st'.pending_events event_id =
            some { d.pending_event with attempts := 0, next_retry_at_epoch := now }
        ∧ st'.dedup_index = st.dedup_index
        ∧ st'.cooldown_index = st.cooldown_index) := by
  rw [RelayStore.replay_dlq_event] at hrep
  rcases hl : lookupKey st.dlq_events event_id with _ | d
  · simp only [hl] at hrep
    injection hrep with hres hst
    subst hres
    subst hst
    refine ⟨fun _ => ⟨rfl, rfl⟩, ?_⟩
    intro d hd
    exact Option.noConfusion hd
  · simp only [hl] at hrep
    injection hrep with hres hst
    subst hres
    subst hst
    refine ⟨fun h => Option.noConfusion h, ?_⟩
    intro d' hd
    obtain rfl := Option.some.inj hd
    exact ⟨rfl, rfl, lookupKey_eraseKey_self _ _, rfl, lookupKey_insertKey_self _ _ _,
      rfl, rfl⟩

/-- A concrete DLQ row for witnesses. -/
def sampleDlq : DlqEvent :=
  { pending_event := sampleEvent "e1" "d" "c"
    failure_reason := "forward_failed"
    failed_at_epoch := 1
    replay_count := 0 }

/-- Witness for `C4_replay_dlq_event` at a concrete store. -/
theorem C4_witness :
    (RelayStore.replay_dlq_event ⟨[], [("e1", sampleDlq)], [], []⟩ "e1" 7).1 = true := by
  have h := C4_replay_dlq_event ⟨[], [("e1", sampleDlq)], [], []⟩ "e1" 7
    (RelayStore.replay_dlq_event ⟨[], [("e1", sampleDlq)], [], []⟩ "e1" 7).1
    (RelayStore.replay_dlq_event ⟨[], [("e1", sampleDlq)], [], []⟩ "e1" 7).2 rfl
  exact (h.2 sampleDlq rfl).1

/-! ## C5 — signature verification -/

theorem constant_time_hex_equals_iff (a b : String) :
    constant_time_hex_equals a b = true ↔ a = b := by
  unfold constant_time_hex_equals
  by_cases h : a.length ≠ b.length
  · simp only [if_pos h]
    constructor
    · intro hfalse
      cases hfalse
    · intro hab
      exact absurd (hab ▸ rfl) h
  · simp only [if_neg h]
    exact beq_iff_eq

theorem dropWhile_eq_self_of_none {p : Char → Bool} {l : List Char}
    (h : ∀ c ∈ l, p c = false) : l.dropWhile p = l := by
  cases l with
  | nil => rfl
  | cons c rest => simp [List.dropWhile_cons, h c (by simp)]

theorem trimChars_eq_self {l : List Char} (h : ∀ c ∈ l, c.isWhitespace = false) :
    trimChars l = l := by
  unfold trimChars
  rw [dropWhile_eq_self_of_none h]
  rw [dropWhile_eq_self_of_none (fun c hc => h c (List.mem_reverse.mp hc))]
  exact List.reverse_reverse l

theorem map_eq_self_of_fixed {f : Char → Char} {l : List Char}
    (h : ∀ c ∈ l, f c = c) : l.map f = l := by
  induction l with
  | nil => rfl
  | cons c rest ih =>
      simp only [List.map_cons, h c (by simp)]
      rw [ih (fun c hc => h c (List.mem_cons_of_mem _ hc))]

theorem hexChar_not_whitespace {c : Char} (h : isLowerHexChar c = true) :
    c.isWhitespace = false := by
  have hn : (48 ≤ c.toNat ∧ c.toNat ≤ 57) ∨ (97 ≤ c.toNat ∧ c.toNat ≤ 102) := by
    simpa [isLowerHexChar] using h
  rcases hn with ⟨h1, h2⟩ | ⟨h1, h2⟩ <;>
  · have e1 : c ≠ ' ' := fun he => by subst he; revert h1 h2; decide
    have e2 : c ≠ '\t' := fun he => by subst he; revert h1 h2; decide
    have e3 : c ≠ '\r' := fun he => by subst he; revert h1 h2; decide
    have e4 : c ≠ '\n' := fun he => by subst he; revert h1 h2; decide
    simp [Char.isWhitespace, e1, e2, e3, e4]

theorem hexChar_asciiLower_fixed {c : Char} (h : isLowerHexChar c = true) :
    asciiLower c = c := by
  have hn : (48 ≤ c.toNat ∧ c.toNat ≤ 57) ∨ (97 ≤ c.toNat ∧ c.toNat ≤ 102) := by
    simpa [isLowerHexChar] using h
  unfold asciiLower
  rcases hn with ⟨h1, h2⟩ | ⟨h1, h2⟩ <;> rw [if_neg (by omega)]

theorem normalize_hex_self {d : String} (hhex : isLowerHexString d = true) :
    normalize_signature d = d := by
  have hall : ∀ c ∈ d.data, isLowerHexChar c = true := by
    simpa [isLowerHexString, List.all_eq_true] using hhex
  have hnws : ∀ c ∈ d.data, c.isWhitespace = false :=
    fun c hc => hexChar_not_whitespace (hall c hc)
  have hnopre : ¬ d.data.take 7 = "sha256=".data := by
    intro he
    cases hd : d.data with
    | nil =>
        rw [hd] at he
        simp at he
    | cons c cs =>
        rw [hd] at he
        have hlit : "sha256=".data = ['s', 'h', 'a', '2', '5', '6', '='] := rfl
        rw [hlit] at he
        simp only [List.take, List.cons.injEq] at he
        have hc : c = 's' := he.1
        have := hall c (hd ▸ List.mem_cons_self c cs)
        rw [hc] at this
        exact absurd this (by decide)
  unfold normalize_signature
  simp only [trimChars_eq_self hnws]
  rw [if_neg hnopre]
  rw [List.filter_eq_self.mpr
    (fun c hc => by simp [hnws c hc])]
  rw [map_eq_self_of_fixed (fun c hc => hexChar_asciiLower_fixed (hall c hc))]

theorem normalize_prefixed_hex {d : String} (hhex : isLowerHexString d = true) :
    normalize_signature ("sha256=" ++ d) = d := by
  have hall : ∀ c ∈ d.data, isLowerHexChar c = true := by
    simpa [isLowerHexString, List.all_eq_true] using hhex
  have hnws : ∀ c ∈ d.data, c.isWhitespace = false :=
    fun c hc => hexChar_not_whitespace (hall c hc)
  have hlit : "sha256=".data = ['s', 'h', 'a', '2', '5', '6', '='] := rfl
  have hdata : ("sha256=" ++ d).data = "sha256=".data ++ d.data := String.data_append ..
  have hnws' : ∀ c ∈ ("sha256=" ++ d).data, c.isWhitespace = false := by
    intro c hc
    rw [hdata] at hc
    rcases List.mem_append.mp hc with hc | hc
    · rw [hlit] at hc
      fin_cases hc <;> decide
    · exact hnws c hc
  have htrim := trimChars_eq_self hnws'
  rw [hdata, hlit] at htrim
  unfold normalize_signature
  simp only [hdata, hlit, htrim]
  have htake : (['s', 'h', 'a', '2', '5', '6', '='] ++ d.data).take 7
      = ['s', 'h', 'a', '2', '5', '6', '='] := List.take_left' rfl
  have hdrop : (['s', 'h', 'a', '2', '5', '6', '='] ++ d.data).drop 7 = d.data :=
    List.drop_left' rfl
  rw [htake, if_pos rfl, hdrop]
  rw [List.filter_eq_self.mpr (fun c hc => by simp [hnws c hc])]
  rw [map_eq_self_of_fixed (fun c hc => hexChar_asciiLower_fixed (hall c hc))]

/-- C5: verification succeeds exactly when the normalized header (trim,
strip a leading `sha256=`, remove internal whitespace, lowercase) equals
the HMAC-SHA256 hex digest; both the `sha256=`-prefixed and bare forms
of the digest are accepted, and a normalized header whose length differs
from the digest's is rejected.  `hmacHex` abstracts the external
HMAC-SHA256 computation; its output is lowercase hex. -/
theorem C5_verify_github_signature (hmacHex : String → List Nat → String)
    (secret : String) (payload : List Nat) (header : String)
    (hhex : isLowerHexString (hmacHex secret payload) = true) :
    (verify_github_signature hmacHex secret payload header = true ↔
      normalize_signature header = hmacHex secret payload)
    ∧ verify_github_signature hmacHex secret payload
        ("sha256=" ++ hmacHex secret payload) = true
    ∧ verify_github_signature hmacHex secret payload (hmacHex secret payload) = true
    ∧ ((normalize_signature header).length ≠ (hmacHex secret payload).length →
        verify_github_signature hmacHex secret payload header = false) := by
  refine ⟨?_, ?_, ?_, ?_⟩
  · exact constant_time_hex_equals_iff ..
  · unfold verify_github_signature
    rw [normalize_prefixed_hex hhex]
    exact (constant_time_hex_equals_iff ..).mpr rfl
  · unfold verify_github_signature
    rw [normalize_hex_self hhex]
    exact (constant_time_hex_equals_iff ..).mpr rfl
  · intro hlen
    unfold verify_github_signature constant_time_hex_equals
    rw [if_pos hlen]

/-- Witness for `C5_verify_github_signature` at a concrete digest. -/
theorem C5_witness :
    verify_github_signature (fun _ _ => "ab12cd") "secret" [1, 2]
      ("sha256=" ++ "ab12cd") = true :=
  (C5_verify_github_signature (fun _ _ => "ab12cd") "secret" [1, 2] "x"
    (by decide)).2.1

/-! ## C7 — exponential backoff -/

/-- C7 counterexample.  The forward worker caps the exponent at 31:
at `initial = 1`, `max = 2^40`, `attempts = 40` the code computes
`2^31`, not the claimed uncapped `min(initial · 2^(a−1), max) = 2^39`. -/
theorem C7_counterexample :
    compute_backoff_seconds 1 (2 ^ 40) 40 = 2 ^ 31
    ∧ compute_backoff_seconds 1 (2 ^ 40) 40 ≠ min (1 * 2 ^ (40 - 1)) (2 ^ 40) := by
  constructor <;> decide

/-- C7 (amended): for `u64` inputs, `retry_backoff_ms base max i` equals
`min(base · 2^min(i,31), max)` (the `u64` saturation of the product is
absorbed by the cap), is monotonically non-decreasing in `i`, bounded by
`max`, and constant from `i = 31` on; the forward worker's
`compute_backoff_seconds` with attempt counter `a` is exactly
`retry_backoff_ms` at index `a − 1`, so for `1 ≤ a ≤ 32` it equals the
claimed `min(initial · 2^(a−1), max)` — the exponent cap `min(a−1, 31)`
is required beyond that. -/
theorem C7_backoff_amended (base maxv : Nat) (hm : maxv < 2 ^ 64) :
    (∀ i, retry_backoff_ms base maxv i = min (base * 2 ^ (min i 31)) maxv)
    ∧ (∀ i j, i ≤ j → retry_backoff_ms base maxv i ≤ retry_backoff_ms base maxv j)
    ∧ (∀ i, retry_backoff_ms base maxv i ≤ maxv)
    ∧ (∀ i, 31 ≤ i → retry_backoff_ms base maxv i = retry_backoff_ms base maxv 31)
    ∧ (∀ a, compute_backoff_seconds base maxv a = retry_backoff_ms base maxv (a - 1))
    ∧ (∀ a, 1 ≤ a → a ≤ 32 →
        compute_backoff_seconds base maxv a = min (base * 2 ^ (a - 1)) maxv) := by
  have hformula : ∀ i, retry_backoff_ms base maxv i = min (base * 2 ^ (min i 31)) maxv := by
    intro i
    simp only [retry_backoff_ms, U64_MAX]
    have h64 : (2 : Nat) ^ 64 - 1 = 18446744073709551615 := by norm_num
    rw [h64]
    have hm' : maxv ≤ 18446744073709551615 := by omega
    omega
  refine ⟨hformula, ?_, ?_, ?_, ?_, ?_⟩
  · intro i j hij
    rw [hformula i, hformula j]
    have hexp : min i 31 ≤ min j 31 := min_le_min hij (le_refl 31)
    have hpow : 2 ^ (min i 31) ≤ 2 ^ (min j 31) :=
      Nat.pow_le_pow_right (by norm_num) hexp
    exact min_le_min (Nat.mul_le_mul_left base hpow) (le_refl maxv)
  · intro i
    rw [hformula i]
    exact min_le_right _ _
  · intro i hi
    rw [hformula i, hformula 31]
    rw [min_eq_right hi, min_eq_right (le_refl 31)]
  · intro a
    rfl
  · intro a ha1 ha2
    have h1 : compute_backoff_seconds base maxv a = retry_backoff_ms base maxv (a - 1) := rfl
    have h2 : min (a - 1) 31 = a - 1 := min_eq_left (by omega)
    rw [h1, hformula (a - 1), h2]

/-- Witness for `C7_backoff_amended` at concrete inputs. -/
theorem C7_witness :
    retry_backoff_ms 1 30 3 = min (1 * 2 ^ (min 3 31)) 30 :=
  (C7_backoff_amended 1 30 (by norm_num)).1 3

/-! ## C8 — Linear timestamp gate -/

/-- C8: with enforcement disabled the gate always accepts; with
enforcement enabled it accepts exactly when an epoch value `ts` is
extracted and `|now − ts| ≤ window`.  Extraction: a missing field yields
none; an `i64`-range JSON number is taken directly, divided by 1000 when
above `10^10` (milliseconds); an out-of-`i64`-range number fails; a
string goes through `i64` parsing and the same millisecond rule; any
other JSON shape fails. -/
theorem C8_timestamp_window (payload : Json) (now window : Int) :
    verify_linear_timestamp_window payload now window false = true
    ∧ (verify_linear_timestamp_window payload now window true = true ↔
        ∃ ts, extract_linear_webhook_timestamp_epoch payload = some ts ∧ |now - ts| ≤ window)
    ∧ (payload.getField "webhookTimestamp" = none →
        extract_linear_webhook_timestamp_epoch payload = none)
    ∧ (∀ n, payload.getField "webhookTimestamp" = some (.num n) →
        -(2 ^ 63) ≤ n → n < 2 ^ 63 →
        extract_linear_webhook_timestamp_epoch payload =
          some (if n > 10000000000 then n / 1000 else n))
    ∧ (∀ n, payload.getField "webhookTimestamp" = some (.num n) →
        (n < -(2 ^ 63) ∨ 2 ^ 63 ≤ n) →
        extract_linear_webhook_timestamp_epoch payload = none)
    ∧ (∀ text, payload.getField "webhookTimestamp" = some (.str text) →
        extract_linear_webhook_timestamp_epoch payload =
          (parse_i64 text).bind fun raw =>
            if raw > 10000000000 then some (raw / 1000) else some raw)
    ∧ (∀ v, payload.getField "webhookTimestamp" = some v →
        (∀ n, v ≠ .num n) → (∀ t, v ≠ .str t) →
        extract_linear_webhook_timestamp_epoch payload = none) := by
  refine ⟨rfl, ?_, ?_, ?_, ?_, ?_, ?_⟩
  · rcases hext : extract_linear_webhook_timestamp_epoch payload with _ | ts
    · simp [verify_linear_timestamp_window, hext]
    · simp [verify_linear_timestamp_window, hext]
  · intro h
    simp [extract_linear_webhook_timestamp_epoch, h]
  · intro n h h1 h2
    have hin : -(2 ^ 63) ≤ n ∧ n < 2 ^ 63 := ⟨h1, h2⟩
    simp only [extract_linear_webhook_timestamp_epoch, h, Option.bind_some,
      Option.some_bind, if_pos hin]
    by_cases hms : n > 10000000000
    · simp [hms]
    · simp [hms]
  · intro n h hout
    have hnot : ¬ (-(2 ^ 63) ≤ n ∧ n < 2 ^ 63) := by omega
    simp only [extract_linear_webhook_timestamp_epoch, h, Option.some_bind]
    rw [if_neg hnot]
    rfl
  · intro text h
    simp only [extract_linear_webhook_timestamp_epoch, h, Option.some_bind]
  · intro v h hn ht
    cases v with
    | num n => exact absurd rfl (hn n)
    | str t => exact absurd rfl (ht t)
    | null => simp [extract_linear_webhook_timestamp_epoch, h]
    | bool b => simp [extract_linear_webhook_timestamp_epoch, h]
    | arr items => simp [extract_linear_webhook_timestamp_epoch, h]
    | obj fields => simp [extract_linear_webhook_timestamp_epoch, h]

/-- Witness for `C8_timestamp_window`: a millisecond timestamp is
divided by 1000. -/
theorem C8_witness :
    extract_linear_webhook_timestamp_epoch
        (.obj [("webhookTimestamp", .num 1700000000123)])
      = some (if (1700000000123 : Int) > 10000000000
          then (1700000000123 : Int) / 1000 else 1700000000123) :=
  (C8_timestamp_window (.obj [("webhookTimestamp", .num 1700000000123)]) 0 60).2.2.2.1
    1700000000123 rfl (by decide) (by decide)

/-! ## C6 — payload sanitizer -/

theorem mem_extractStringsObj {fields : List (String × Json)} {path f t : String}
    (h : (f, t) ∈ extractStringsObj fields path) :
    ∃ kv ∈ fields, (f, t) ∈ extractStrings kv.2 (joinPath path kv.1) := by
  induction fields with
  | nil => simp [extractStringsObj] at h
  | cons kv rest ih =>
      obtain ⟨key, v⟩ := kv
      simp only [extractStringsObj, List.mem_append] at h
      rcases h with h | h
      · exact ⟨(key, v), by simp, h⟩
      · obtain ⟨kv', hkv', hin⟩ := ih h
        exact ⟨kv', List.mem_cons_of_mem _ hkv', hin⟩

theorem mem_extractStringsArr {items : List Json} {path f t : String} :
    ∀ {idx : Nat}, (f, t) ∈ extractStringsArr items idx path →
    ∃ x ∈ items, ∃ i : Nat, (f, t) ∈ extractStrings x (joinPath path (toString i)) := by
  induction items with
  | nil => intro idx h; simp [extractStringsArr] at h
  | cons x rest ih =>
      intro idx h
      simp only [extractStringsArr, List.mem_append] at h
      rcases h with h | h
      · exact ⟨x, by simp, idx, h⟩
      · obtain ⟨x', hx', i, hin⟩ := ih h
        exact ⟨x', List.mem_cons_of_mem _ hx', i, hin⟩

/-- Every extracted string is longer than 10 bytes. -/
theorem extractStrings_byteSize :
    ∀ (j : Json) (path f t : String), (f, t) ∈ extractStrings j path →
      t.utf8ByteSize > 10 := by
  have H : ∀ (n : Nat) (j : Json), sizeOf j = n →
      ∀ path f t, (f, t) ∈ extractStrings j path → t.utf8ByteSize > 10 := by
    intro n
    induction n using Nat.strong_induction_on with
    | _ n ih =>
      intro j hj path f t hmem
      cases j with
      | str s =>
          by_cases hs : s.utf8ByteSize > 10
          · simp only [extractStrings, if_pos hs, List.mem_singleton] at hmem
            have ht : t = s := congrArg Prod.snd hmem
            rw [ht]
            exact hs
          · simp [extractStrings, hs] at hmem
      | obj fields =>
          simp only [extractStrings] at hmem
          obtain ⟨kv, hkv, hin⟩ := mem_extractStringsObj hmem
          have hlt : sizeOf kv.2 < n := by
            subst hj
            have h1 : sizeOf kv < sizeOf fields := List.sizeOf_lt_of_mem hkv
            have h2 : sizeOf kv.2 ≤ sizeOf kv := by
              obtain ⟨a, b⟩ := kv
              simp only [Prod.mk.sizeOf_spec]
              omega
            have h3 : sizeOf (Json.obj fields) = 1 + sizeOf fields := by simp
            omega
          exact ih (sizeOf kv.2) hlt kv.2 rfl (joinPath path kv.1) f t hin
      | arr items =>
          simp only [extractStrings] at hmem
          obtain ⟨x, hx, i, hin⟩ := mem_extractStringsArr hmem
          have hlt : sizeOf x < n := by
            subst hj
            have h1 : sizeOf x < sizeOf items := List.sizeOf_lt_of_mem hx
            have h3 : sizeOf (Json.arr items) = 1 + sizeOf items := by simp
            omega
          exact ih (sizeOf x) hlt x rfl (joinPath path (toString i)) f t hin
      | null => simp [extractStrings] at hmem
      | bool b => simp [extractStrings] at hmem
      | num k => simp [extractStrings] at hmem
  exact fun j path f t h => H (sizeOf j) j rfl path f t h

/-- C6 counterexample.  For a supported source but a non-object payload
the annotate-only sanitizer fails, contradicting "succeeds for the
supported sources" over every JSON payload. -/
theorem C6_counterexample :
    RelayCore.sanitize_payload [] "github" .null
      = .error "sanitized payload is not an object" := rfl

/-- C6 (amended): for the supported sources and OBJECT payloads the
sanitizer succeeds; the result carries `_sanitized = true`, and when any
extracted string matches a pattern, `_flags` is exactly the list of
`{field, count}` entries of `find_all_hits` (one entry per flagged
string, in extraction order); with no match the `_flags` field is
whatever the input object already carried.  Every flagged entry comes
from a string of the payload longer than 10 bytes with `count` matching
patterns (at least one), and conversely every extracted string matching
at least one pattern is flagged.  A non-object payload or an unsupported
source yields an error. -/
theorem C6_sanitize_amended (patterns : List (String → Bool)) (source : String) :
    (∀ fields, (source = "github" ∨ source = "linear") →
      ∃ out, RelayCore.sanitize_payload patterns source (.obj fields) = .ok (.obj out)
        ∧ lookupKey out "_sanitized" = some (.bool true)
        ∧ (find_all_hits patterns (.obj fields) ≠ [] →
            lookupKey out "_flags" = some (.arr ((find_all_hits patterns (.obj fields)).map
              (fun e => mkFlag e.1 e.2))))
        ∧ (find_all_hits patterns (.obj fields) = [] →
            lookupKey out "_flags" = lookupKey fields "_flags"))
    ∧ (¬ (source = "github" ∨ source = "linear") →
        ∀ p, RelayCore.sanitize_payload patterns source p
          = .error ("unsupported source: " ++ source))
    ∧ (∀ p f c, (f, c) ∈ find_all_hits patterns p →
        1 ≤ c ∧ ∃ t, (f, t) ∈ extractStrings p "" ∧ t.utf8ByteSize > 10
          ∧ c = countHits patterns t)
    ∧ (∀ p f t, (f, t) ∈ extractStrings p "" → 1 ≤ countHits patterns t →
        (f, countHits patterns t) ∈ find_all_hits patterns p) := by
  have hsan_ne : ("_sanitized" : String) ≠ "_flags" := by decide
  have hflags_ne : ("_flags" : String) ≠ "_sanitized" := by decide
  refine ⟨?_, ?_, ?_, ?_⟩
  · intro fields hsrc
    have hsup : RelayCore.ensure_supported_source source = .ok () := by
      unfold RelayCore.ensure_supported_source
      rw [if_pos hsrc]
    by_cases hnil : find_all_hits patterns (.obj fields) = []
    · refine ⟨insertKey fields "_sanitized" (.bool true), ?_, ?_, ?_, ?_⟩
      · unfold RelayCore.sanitize_payload
        simp [hsup, hnil]
      · exact lookupKey_insertKey_self _ _ _
      · intro hne
        exact absurd hnil hne
      · intro _
        exact lookupKey_insertKey_ne _ _ _ _ hflags_ne
    · refine ⟨insertKey (insertKey fields "_sanitized" (.bool true)) "_flags"
        (.arr ((find_all_hits patterns (.obj fields)).map (fun e => mkFlag e.1 e.2))),
        ?_, ?_, ?_, ?_⟩
      · unfold RelayCore.sanitize_payload
        simp [hsup, hnil]
      · rw [lookupKey_insertKey_ne _ _ _ _ hsan_ne]
        exact lookupKey_insertKey_self _ _ _
      · intro _
        exact lookupKey_insertKey_self _ _ _
      · intro h
        exact absurd h hnil
  · intro hns p
    have hsup : RelayCore.ensure_supported_source source
        = .error ("unsupported source: " ++ source) := by
      unfold RelayCore.ensure_supported_source
      rw [if_neg hns]
    unfold RelayCore.sanitize_payload
    simp [hsup]
  · intro p f c hmem
    unfold find_all_hits at hmem
    obtain ⟨e, he, hg⟩ := List.mem_filterMap.mp hmem
    by_cases hz : countHits patterns e.2 = 0
    · simp [hz] at hg
    · rw [if_neg hz] at hg
      obtain ⟨hf, hc⟩ := Prod.mk.injEq .. ▸ Option.some.inj hg
      refine ⟨by omega, e.2, ?_, ?_, hc.symm⟩
      · rw [← hf]
        simpa using he
      · exact extractStrings_byteSize p "" e.1 e.2 (by simpa using he)
  · intro p f t hmem hc
    unfold find_all_hits
    apply List.mem_filterMap.mpr
    refine ⟨(f, t), hmem, ?_⟩
    simp only
    rw [if_neg (by omega)]

/-- Witness for `C6_sanitize_amended` at a concrete payload and
pattern. -/
theorem C6_witness :
    1 ≤ countHits [fun s => decide (s.length > 3)] "hello world!!" :=
  ((C6_sanitize_amended [fun s => decide (s.length > 3)] "github").2.2.1
    (.obj [("body", .str "hello world!!")]) "body"
    (countHits [fun s => decide (s.length > 3)] "hello world!!") (by decide)).1

/-! ## C10 — ingress admission policy -/

/-- C10: the authenticated, well-formed GitHub handler enqueues only
when the event header is in the supported set, the payload action is in
the supported set, and the sender login does not end in `[bot]`; a
delivery failing the filter gets `202 {"reason":"filtered"}` and a bot
sender `202 {"reason":"bot_sender"}`, both leaving the store unchanged.
The Linear handler enqueues only when the payload type is `Issue` or
`Comment`, answering `202 {"reason":"filtered"}` otherwise. -/
theorem C10_ingress_admission (cfg : Config) (payload : Json) (event_id : String)
    (now : Int) (st : RelayStore) :
    (∀ event_name delivery_id r st',
      github_hook_core cfg (some event_name) (some delivery_id) payload event_id now st
        = (r, st') →
      (((((payload.getField "action").bind Json.asStr).getD "") ≠ "") →
        ¬ is_supported_github_event_action event_name
            (((payload.getField "action").bind Json.asStr).getD "") = true →
          r = .accepted "filtered" ∧ r.status = 202 ∧ st' = st)
      ∧ (((((payload.getField "action").bind Json.asStr).getD "") ≠ "") →
          is_supported_github_event_action event_name
            (((payload.getField "action").bind Json.asStr).getD "") = true →
          (((((payload.getField "sender").bind (·.getField "login")).bind
              Json.asStr).getD "").endsWith "[bot]") = true →
          r = .accepted "bot_sender" ∧ r.status = 202 ∧ st' = st)
      ∧ (∀ p ∈ st'.pending_events, p ∈ st.pending_events ∨
          (is_supported_github_event_action event_name
              (((payload.getField "action").bind Json.asStr).getD "") = true
            ∧ (((((payload.getField "sender").bind (·.getField "login")).bind
                Json.asStr).getD "").endsWith "[bot]") = false)))
    ∧ (∀ delivery_id r st',
      linear_hook_core cfg (some delivery_id) payload event_id now st = (r, st') →
      (((((payload.getField "type").bind Json.asStr).getD "") ≠ "") →
        ((((payload.getField "action").bind Json.asStr).getD "") ≠ "") →
        ¬ is_supported_linear_type (((payload.getField "type").bind Json.asStr).getD "")
          = true →
        r = .accepted "filtered" ∧ r.status = 202 ∧ st' = st)
      ∧ (∀ p ∈ st'.pending_events, p ∈ st.pending_events ∨
          is_supported_linear_type (((payload.getField "type").bind Json.asStr).getD "")
            = true)) := by
  constructor
  · intro event_name delivery_id r st' heq
    simp only [github_hook_core] at heq
    by_cases hact : (((payload.getField "action").bind Json.asStr).getD "") = ""
    · rw [if_pos hact] at heq
      injection heq with hr hst
      subst hr
      subst hst
      exact ⟨fun hne _ => absurd hact hne, fun hne _ _ => absurd hact hne,
        fun p hp => Or.inl hp⟩
    · rw [if_neg hact] at heq
      by_cases hsup : is_supported_github_event_action event_name
          (((payload.getField "action").bind Json.asStr).getD "") = true
      · simp only [hsup, Bool.not_true, Bool.false_eq_true, if_false] at heq
        by_cases hbot : (((((payload.getField "sender").bind (·.getField "login")).bind
            Json.asStr).getD "").endsWith "[bot]") = true
        · simp only [hbot, if_true] at heq
          injection heq with hr hst
          subst hr
          subst hst
          exact ⟨fun _ hns => absurd hsup hns, fun _ _ _ => ⟨rfl, rfl, rfl⟩,
            fun p hp => Or.inl hp⟩
        · have hbot' : (((((payload.getField "sender").bind (·.getField "login")).bind
              Json.asStr).getD "").endsWith "[bot]") = false := by
            revert hbot
            cases (((((payload.getField "sender").bind (·.getField "login")).bind
              Json.asStr).getD "").endsWith "[bot]") <;> simp
          refine ⟨fun _ hns => absurd hsup hns, ?_, fun p hp => Or.inr ⟨hsup, hbot'⟩⟩
          intro _ _ hb
          rw [hbot'] at hb
          exact Bool.noConfusion hb
      · have hsup' : is_supported_github_event_action event_name
            (((payload.getField "action").bind Json.asStr).getD "") = false := by
          revert hsup
          cases is_supported_github_event_action event_name
            (((payload.getField "action").bind Json.asStr).getD "") <;> simp
        simp only [hsup', Bool.not_false, if_true] at heq
        injection heq with hr hst
        subst hr
        subst hst
        refine ⟨fun _ _ => ⟨rfl, rfl, rfl⟩, ?_, fun p hp => Or.inl hp⟩
        intro _ hs _
        rw [hsup'] at hs
        exact Bool.noConfusion hs
  · intro delivery_id r st' heq
    simp only [linear_hook_core] at heq
    by_cases hba : ((((payload.getField "type").bind Json.asStr).getD "") = ""
        ∨ (((payload.getField "action").bind Json.asStr).getD "") = "")
    · rw [if_pos hba] at heq
      injection heq with hr hst
      subst hr
      subst hst
      refine ⟨?_, fun p hp => Or.inl hp⟩
      intro hty hac _
      rcases hba with h | h
      · exact absurd h hty
      · exact absurd h hac
    · rw [if_neg hba] at heq
      by_cases hsupl : is_supported_linear_type
          (((payload.getField "type").bind Json.asStr).getD "") = true
      · exact ⟨fun _ _ hns => absurd hsupl hns, fun p hp => Or.inr hsupl⟩
      · have hsupl' : is_supported_linear_type
            (((payload.getField "type").bind Json.asStr).getD "") = false := by
          revert hsupl
          cases is_supported_linear_type
            (((payload.getField "type").bind Json.asStr).getD "") <;> simp
        simp only [hsupl', Bool.not_false, if_true] at heq
        injection heq with hr hst
        subst hr
        subst hst
        exact ⟨fun _ _ _ => ⟨rfl, rfl, rfl⟩, fun p hp => Or.inl hp⟩

/-- Witness for `C10_ingress_admission`: an unsupported event name is
filtered with a 202 and an unchanged store. -/
theorem C10_witness :
    (github_hook_core
        ⟨7, 30, 30, none, 60, true, 5, 1, 30⟩ (some "push") (some "d1")
        (.obj [("action", .str "opened")]) "e1" 0 RelayStore.empty)
      = (.accepted "filtered", RelayStore.empty) := by
  have h := (C10_ingress_admission ⟨7, 30, 30, none, 60, true, 5, 1, 30⟩
    (.obj [("action", .str "opened")]) "e1" 0 RelayStore.empty).1 "push" "d1"
    (github_hook_core ⟨7, 30, 30, none, 60, true, 5, 1, 30⟩ (some "push") (some "d1")
      (.obj [("action", .str "opened")]) "e1" 0 RelayStore.empty).1
    (github_hook_core ⟨7, 30, 30, none, 60, true, 5, 1, 30⟩ (some "push") (some "d1")
      (.obj [("action", .str "opened")]) "e1" 0 RelayStore.empty).2 rfl
  obtain ⟨hr, -, hst⟩ := h.1 (by decide) (by decide)
  rw [Prod.ext_iff]
  exact ⟨hr, hst⟩

/-! ## C9 — attempts accounting in the forward worker -/

theorem enqueue_pending_mem {st : RelayStore} {event : PendingEvent} {dr cs ne : Int}
    {p : String × PendingEvent}
    (hp : p ∈ ((st.enqueue_pending_event event dr cs ne).2).pending_events) :
    p ∈ st.pending_events ∨ p = (event.event_id, event) := by
  simp only [RelayStore.enqueue_pending_event] at hp
  split at hp
  · exact Or.inl hp
  · split at hp
    · exact Or.inl hp
    · rcases mem_insertKey hp with h | h
      · exact Or.inr h
      · exact Or.inl h

theorem pop_due_pending_sub {st : RelayStore} {now : Int} {ev : PendingEvent}
    {st' : RelayStore} (h : st.pop_due_event now = (some ev, st')) :
    (∀ p ∈ st'.pending_events, p ∈ st.pending_events)
    ∧ ∃ id, (id, ev) ∈ st.pending_events := by
  unfold RelayStore.pop_due_event at h
  rcases hsel : selectDue st.pending_events now with _ | q
  · simp only [hsel] at h
    injection h with h1 _
    exact Option.noConfusion h1
  · obtain ⟨id, ev0⟩ := q
    simp only [hsel] at h
    injection h with h1 h2
    obtain rfl := Option.some.inj h1
    subst h2
    constructor
    · intro p hp
      exact (mem_eraseKey.mp hp).1
    · have hspec := (selectStep_fold_spec now st.pending_events none).2 (id, ev0)
        (by simpa [selectDue] using hsel)
      rcases hspec.1 with ⟨hm, -⟩ | hfalse
      · exact ⟨id, hm⟩
      · exact Option.noConfusion hfalse

/-- Pending-table invariant along reachable executions: with at least
one allowed forward attempt, every pending row has `attempts` strictly
below `forward_max_attempts`. -/
theorem reachable_pending_attempts (cfg : Config) (patterns : List (String → Bool))
    (hmax : 1 ≤ cfg.forward_max_attempts) (hmax32 : cfg.forward_max_attempts ≤ U32_MAX) :
    ∀ {st : RelayStore}, Reachable cfg patterns st →
      ∀ p ∈ st.pending_events, p.2.attempts < cfg.forward_max_attempts := by
  intro st hst
  induction hst with
  | empty =>
      intro p hp
      simp [RelayStore.empty] at hp
  | enqueue event dr cs ne hst hev ih =>
      intro p hp
      rcases enqueue_pending_mem hp with h | h
      · exact ih p h
      · rw [h]
        simp only
        omega
  | workerStep pop_now outcome process_now hst hpop ih =>
      rename_i st0 event st1
      intro p hp
      obtain ⟨hsub, id, hmem⟩ := pop_due_pending_sub hpop
      have hevlt : event.attempts < cfg.forward_max_attempts := ih (id, event) hmem
      simp only [process_pending_event] at hp
      rcases hsanr : Embedded.sanitize_payload patterns event.source.as_str event.payload
        with e | q
      · simp only [hsanr, RelayStore.move_to_dlq] at hp
        exact ih p (hsub p hp)
      · simp only [hsanr] at hp
        cases outcome with
        | Success => exact ih p (hsub p hp)
        | Permanent reason =>
            simp only [RelayStore.move_to_dlq] at hp
            exact ih p (hsub p hp)
        | Transient reason =>
            have hmin : min (event.attempts + 1) U32_MAX = event.attempts + 1 :=
              min_eq_left (by omega)
            simp only [hmin] at hp
            by_cases hge : event.attempts + 1 ≥ cfg.forward_max_attempts
            · rw [if_pos hge] at hp
              simp only [RelayStore.move_to_dlq] at hp
              exact ih p (hsub p hp)
            · rw [if_neg hge] at hp
              simp only [RelayStore.requeue_event] at hp
              rcases mem_insertKey hp with h | h
              · rw [h]
                simp only
                omega
              · exact ih p (hsub p h)
  | replay event_id ne hst ih =>
      intro p hp
      simp only [RelayStore.replay_dlq_event] at hp
      split at hp
      · exact ih p hp
      · rcases mem_insertKey hp with h | h
        · rw [h]
          simp only
          omega
        · exact ih p h

/-- The cast of a backoff below `2^63` is value-preserving. -/
theorem i64_of_u64_of_lt {n : Nat} (h : n < 2 ^ 63) : i64_of_u64 n = (n : Int) := by
  unfold i64_of_u64
  have hm : (n + 2 ^ 63) % 2 ^ 64 = n + 2 ^ 63 := Nat.mod_eq_of_lt (by omega)
  rw [hm]
  push_cast
  omega

/-- The computed backoff never exceeds the configured maximum. -/
theorem compute_backoff_le (initial_seconds max_seconds attempts : Nat) :
    compute_backoff_seconds initial_seconds max_seconds attempts ≤ max_seconds :=
  min_le_right _ _

/-- C9: along reachable executions (ingress enqueues with
`attempts = 0`) and with `forward_max_attempts ≥ 1`, every pending row
has `attempts < forward_max_attempts`; for a job the worker pops and
resolves as Transient, the `u32` saturating increment is an exact `+1`,
the incremented value never exceeds `forward_max_attempts`, and the job
is moved to the DLQ with reason `forward_failed` (not requeued) exactly
when the incremented value reaches `forward_max_attempts`, being
requeued with `next_retry_at_epoch = now + backoff` otherwise.  The
well-formed-config bound `Config.WF` keeps `forward_max_backoff_seconds`
below `2^63`, where the worker's `as i64` cast of the backoff is
value-preserving. -/
theorem C9_transient_attempts (cfg : Config) (patterns : List (String → Bool))
    (hmax : 1 ≤ cfg.forward_max_attempts) (hwf : cfg.WF)
    (st : RelayStore) (hreach : Reachable cfg patterns st) :
    (∀ p ∈ st.pending_events, p.2.attempts < cfg.forward_max_attempts)
    ∧ (∀ pop_now ev st', st.pop_due_event pop_now = (some ev, st') →
        ∀ reason process_now sanitized,
        Embedded.sanitize_payload patterns ev.source.as_str ev.payload = .ok sanitized →
        min (ev.attempts + 1) U32_MAX = ev.attempts + 1
        ∧ ev.attempts + 1 ≤ cfg.forward_max_attempts
        ∧ (ev.attempts + 1 ≥ cfg.forward_max_attempts →
            process_pending_event cfg patterns (.Transient reason) process_now ev st'
              = st'.move_to_dlq { ev with attempts := ev.attempts + 1 } "forward_failed"
                  process_now
            ∧ (process_pending_event cfg patterns (.Transient reason) process_now ev
                st').pending_events = st'.pending_events
            ∧ lookupKey (process_pending_event cfg patterns (.Transient reason)
                process_now ev st').dlq_events ev.event_id
              = some { pending_event := ({ ev with attempts := ev.attempts + 1 }),
                       failure_reason := "forward_failed",
                       failed_at_epoch := process_now, replay_count := 0 })
        ∧ (ev.attempts + 1 < cfg.forward_max_attempts →
            process_pending_event cfg patterns (.Transient reason) process_now ev st'
              = st'.requeue_event { ev with
                                     attempts := ev.attempts + 1,
                                     next_retry_at_epoch := process_now +
                                       (compute_backoff_seconds
                                         cfg.forward_initial_backoff_seconds
                                         cfg.forward_max_backoff_seconds
                                         (ev.attempts + 1) : Int) })) := by
  have hmax32 : cfg.forward_max_attempts ≤ U32_MAX := hwf.1
  have hinv := reachable_pending_attempts cfg patterns hmax hmax32 hreach
  refine ⟨hinv, ?_⟩
  intro pop_now ev st' hpop reason process_now sanitized hsan
  obtain ⟨hsub, id, hmem⟩ := pop_due_pending_sub hpop
  have hevlt : ev.attempts < cfg.forward_max_attempts := hinv (id, ev) hmem
  have hmin : min (ev.attempts + 1) U32_MAX = ev.attempts + 1 := min_eq_left (by omega)
  refine ⟨hmin, by omega, ?_, ?_⟩
  · intro hge
    have hproc : process_pending_event cfg patterns (.Transient reason) process_now ev st'
        = st'.move_to_dlq { ev with attempts := ev.attempts + 1 } "forward_failed"
            process_now := by
      simp only [process_pending_event, hsan, hmin]
      rw [if_pos hge]
    refine ⟨hproc, by rw [hproc]; rfl, ?_⟩
    rw [hproc]
    exact lookupKey_insertKey_self _ _ _
  · intro hlt
    have hcast : i64_of_u64 (compute_backoff_seconds cfg.forward_initial_backoff_seconds
          cfg.forward_max_backoff_seconds (ev.attempts + 1))
        = ((compute_backoff_seconds cfg.forward_initial_backoff_seconds
            cfg.forward_max_backoff_seconds (ev.attempts + 1) : Nat) : Int) :=
      i64_of_u64_of_lt (lt_of_le_of_lt (compute_backoff_le _ _ _) hwf.2.2)
    simp only [process_pending_event, hsan, hmin, hcast]
    rw [if_neg (by omega)]

/-- Witness for `C9_transient_attempts` on a store reached by one
enqueue. -/
theorem C9_witness :
    min ((sampleEvent "e1" "d" "c").attempts + 1) U32_MAX
      = (sampleEvent "e1" "d" "c").attempts + 1 := by
  have hreach : Reachable ⟨7, 30, 30, none, 60, true, 5, 1, 30⟩ []
      ((RelayStore.empty.enqueue_pending_event (sampleEvent "e1" "d" "c") 1000 30 0).2) :=
    Reachable.enqueue (sampleEvent "e1" "d" "c") 1000 30 0 Reachable.empty rfl
  have hsan : ∃ q, Embedded.sanitize_payload []
      (sampleEvent "e1" "d" "c").source.as_str (sampleEvent "e1" "d" "c").payload
      = .ok q := ⟨_, rfl⟩
  obtain ⟨q, hq⟩ := hsan
  have h := (C9_transient_attempts ⟨7, 30, 30, none, 60, true, 5, 1, 30⟩ []
    (by norm_num) (by norm_num [Config.WF, U32_MAX, U64_MAX])
    ((RelayStore.empty.enqueue_pending_event (sampleEvent "e1" "d" "c") 1000 30 0).2)
    hreach).2 0 (sampleEvent "e1" "d" "c")
    (((RelayStore.empty.enqueue_pending_event
        (sampleEvent "e1" "d" "c") 1000 30 0).2).pop_due_event 0).2
    rfl "upstream status 503" 5 q hq
  exact h.1

end WebhookRelay
